import Mathlib

/-!
Verification of ocrodjvu's page-processing scheduler and its pure helpers.

Source files embedded below:
- src/lib/utils.py     (parse_page_numbers)
- src/lib/_ocrodjvu.py (Context.page_thread, Context._process, Context.process,
                        Context.close, the file-id escaping at line 436)
- src/lib/image_io.py  (BMP.write_image)

Python strings are modelled as `List Char`, Python byte strings as `List Nat`
(one `Nat` per byte), the mutable result dictionary as a function `Nat → Entry`,
and the thread interleaving of `Context._process` as an explicit schedule: a
list of actor identifiers fed to a small-step transition function.
-/

namespace Ocrodjvu

/-! ## Page-number parsing (src/lib/utils.py, parse_page_numbers, lines 14-42) -/

/-- One decimal digit as accepted by Python `int(s, 10)`. -/
def pyDigit (c : Char) : Option Nat :=
  if c.isDigit then some (c.toNat - 48) else none

/-- Accumulate decimal digits left to right; fails on a non-digit. -/
def digitsValAux : List Char → Nat → Option Nat
  | [], acc => some acc
  | c :: rest, acc =>
    match pyDigit c with
    | none => none
    | some d => digitsValAux rest (acc * 10 + d)

/-- Value of a nonempty all-digit string; `int('')` raises, hence `none` on `[]`. -/
def digitsVal (l : List Char) : Option Nat :=
  match l with
  | [] => none
  | _ => digitsValAux l 0

/-- Python `int(s, 10)`: optional sign followed by digits (whitespace forms are
not exercised by this program's inputs). -/
def pyInt : List Char → Option Int
  | [] => none
  | c :: rest =>
    if c = '-' then (digitsVal rest).map (fun n => -(n : Int))
    else if c = '+' then (digitsVal rest).map (fun n => (n : Int))
    else (digitsVal (c :: rest)).map (fun n => (n : Int))

/-- Python `s.split(sep, 1)` for a one-character separator: split at the first
occurrence, `none` when the separator does not occur (models `'-' in s` being
false). -/
def splitFirst (sep : Char) : List Char → Option (List Char × List Char)
  | [] => none
  | c :: rest =>
    if c = sep then some ([], rest)
    else (splitFirst sep rest).map (fun pr => (c :: pr.1, pr.2))

/-- Python `s.split(',')`: every comma splits, empty pieces are kept. -/
def splitAtCommas : List Char → List (List Char)
  | [] => [[]]
  | c :: rest =>
    if c = ',' then [] :: splitAtCommas rest
    else
      match splitAtCommas rest with
      | [] => [[c]]
      | g :: gs => (c :: g) :: gs

/-- Python `xrange(x, y + 1)` as a list: `[x, x+1, ..., y]`, empty when `y < x`. -/
def xrangeTo (x y : Int) : List Int :=
  (List.range (y + 1 - x).toNat).map (fun i => x + (i : Int))

/-- One comma-separated item of parse_page_numbers (src/lib/utils.py lines 37-41):
a `-`-containing item becomes the inclusive range between its two int halves,
otherwise the item is a single int. -/
def parseItem (item : List Char) : Option (List Int) :=
  match splitFirst '-' item with
  | some (xs, ys) =>
    (pyInt xs).bind (fun x => (pyInt ys).map (fun y => xrangeTo x y))
  | none => (pyInt item).map (fun n => [n])

/-- All items of the comma-split input, in order; fails if any item fails. -/
def parseAll : List (List Char) → Option (List (List Int))
  | [] => some []
  | i :: rest => (parseItem i).bind (fun x => (parseAll rest).map (fun xs => x :: xs))

/-- parse_page_numbers (src/lib/utils.py lines 14-42). Outer `none` models a
raised `ValueError`/`TypeError`; `some none` models Python's `None` return for
absent input; `some (some l)` models a returned list. The loop
`for page_range in pages.split(','): result += ...` is the foldl. -/
def parse_page_numbers : Option (List Char) → Option (Option (List Int))
  | none => some none
  | some s =>
    ((splitAtCommas s).foldl
      (fun acc item => acc.bind (fun r => (parseItem item).map (fun l => r ++ l)))
      (some [])).map some

/-- Python sequence indexing `l[i]` with negative-index wrap-around; `none`
models `IndexError`. -/
def pyIndex {α : Type} (l : List α) (i : Int) : Option α :=
  if 0 ≤ i then l[i.toNat]?
  else if 0 ≤ (l.length : Int) + i then l[((l.length : Int) + i).toNat]?
  else none

/-- Page selection in Context._process (src/lib/_ocrodjvu.py lines 418-421):
`None` means every document page is processed; a list selects
`document.pages[i - 1]` for each requested `i`. -/
def select_document_pages {α : Type} (docPages : List α) : Option (List Int) → Option (List α)
  | none => some docPages
  | some idxs => idxs.mapM (fun i => pyIndex docPages (i - 1))

/-! ## File-identifier escaping (src/lib/_ocrodjvu.py line 436) -/

/-- Python `s.replace(old, new)` for a one-character pattern: every occurrence
of `old` is replaced by `new`. -/
def pyReplaceChar (old : Char) (new : List Char) : List Char → List Char
  | [] => []
  | c :: rest => (if c = old then new else [c]) ++ pyReplaceChar old new rest

/-- The escaping applied to `file_id` at src/lib/_ocrodjvu.py line 436:
`file_id.replace('\\', '\\\\').replace("'", "\\'")` — backslashes are doubled
first, then each single quote gets a backslash prefix. -/
def escape_file_id (s : List Char) : List Char :=
  pyReplaceChar '\'' ['\\', '\''] (pyReplaceChar '\\' ['\\', '\\'] s)

/-- Per-character view of the escaping. -/
def escapeChar (c : Char) : List Char :=
  if c = '\\' then ['\\', '\\']
  else if c = '\'' then ['\\', '\'']
  else [c]

/-- Decoder for the escaped form (the grammar's own unescaping, a test double):
a backslash consumes the next character literally. -/
def unescape_file_id : List Char → List Char
  | [] => []
  | c :: rest =>
    if c = '\\' then
      match rest with
      | [] => []
      | d :: rest2 => d :: unescape_file_id rest2
    else c :: unescape_file_id rest

/-! ## BMP encoding (src/lib/image_io.py, BMP.write_image, lines 79-112;
the same bytes are emitted inline by Context.get_output_image,
src/lib/_ocrodjvu.py lines 319-351) -/

/-- Two little-endian bytes, struct format `<H`. -/
def le16 (n : Nat) : List Nat := [n % 256, n / 256 % 256]

/-- Four little-endian bytes, struct format `<I`. -/
def le32 (n : Nat) : List Nat :=
  [n % 256, n / 256 % 256, n / 65536 % 256, n / 16777216 % 256]

/-- Rounding a row size up to a multiple of 4 (the `row_alignment=4` render
contract). -/
def round_up_to_4 (n : Nat) : Nat := (n + 3) / 4 * 4

/-- Binary length of a natural number (fuel-based so that it evaluates inside
the kernel; `n` halvings always suffice). -/
def bitLenAux : Nat → Nat → Nat
  | 0, _ => 0
  | fuel + 1, n => if n = 0 then 0 else bitLenAux fuel (n / 2) + 1

/-- Binary length: `bitLen n = k` iff `2^(k-1) ≤ n < 2^k` (with `bitLen 0 = 0`). -/
def bitLen (n : Nat) : Nat := bitLenAux n n

/-- The IEEE binary64 (C `double`) value of the literal `39.37` is the dyadic
rational `float39_37_num / 2^47`: the double nearest to `3937/100`, which is
not exactly representable. The arithmetic certifying that this constant is
that nearest double (normal range, below-half distance, so no tie) is proved
in `float39_37_spec`. -/
def float39_37_num : Nat := 5540834916549263

/-- Round the dyadic rational `n / 2^s` to 53 significant bits with
round-half-to-even — IEEE binary64's default rounding — returning the rounded
value as a dyadic `(n', s')` meaning `n' / 2^s'`. Exponent handling beyond the
mantissa is unnecessary here: every value this program feeds through it lies
well inside the normal double range (no overflow, no subnormals), and the
dropped-bit count stays below `s`. -/
def round53 (n s : Nat) : Nat × Nat :=
  let b := bitLen n
  if b ≤ 53 then (n, s)
  else
    let k := b - 53
    let q := n / 2 ^ k
    let r := n % 2 ^ k
    let half := 2 ^ (k - 1)
    (if half < r ∨ (r = half ∧ q % 2 = 1) then q + 1 else q, s - k)

/-- Faithful model of the source expression `int(page_job.dpi * 39.37 + 0.5)`
(src/lib/image_io.py line 82; the same expression at src/lib/_ocrodjvu.py line
320) under IEEE binary64 arithmetic: the double nearest `39.37` is multiplied
by the exactly converted integer `dpi` (the conversion is exact for every
`dpi < 2^53`, hence for every DjVu resolution), `0.5` is added — both
operations rounded to nearest, ties to even — and the sum truncated toward
zero. Because `39.37` itself is rounded, this differs from the exact
`round(dpi * 39.37)` at some legal resolutions, e.g. `dpi = 50` (1968, not
1969) and `dpi = 750` (29527, not 29528). -/
def dpm_of_dpi_float (dpi : Nat) : Nat :=
  let p := round53 (dpi * float39_37_num) 47
  let q := round53 (p.1 + 2 ^ (p.2 - 1)) p.2
  q.1 / 2 ^ q.2

/-- The resolution formula in the claim's own words — `round(dpi * 39.37)` —
in exact rational arithmetic (a half rounds up). Kept for comparison with the
program's float evaluation `dpm_of_dpi_float`, which disagrees at e.g.
`dpi = 50`. -/
def spec_resolution_dpm (dpi : Nat) : Nat := (dpi * 3937 + 50) / 100

/-- BMP.write_image (src/lib/image_io.py lines 79-112): the bytes written for
rendered pixel `data` of an image of `width`×`height` pixels at `bpp` bits per
pixel with resolution `dpm` pixels per meter. Two `struct.pack` calls emit the
14-byte file header and the 40-byte DIB header; a 2-entry white-then-black
palette follows for 1-bit images; the pixel data comes last. -/
def bmp_write_image (bpp width height dpm : Nat) (data : List Nat) : List Nat :=
  let n_palette_colors := if bpp = 1 then 2 else 0
  let headers_size := 54 + 4 * n_palette_colors
  ([66, 77]
    ++ le32 (data.length + headers_size)
    ++ le16 0 ++ le16 0
    ++ le32 headers_size)
  ++ (le32 40
    ++ le32 width ++ le32 height
    ++ le16 1
    ++ le16 bpp
    ++ le32 0
    ++ le32 data.length
    ++ le32 dpm ++ le32 dpm
    ++ le32 n_palette_colors
    ++ le32 n_palette_colors)
  ++ (if bpp = 1 then [255, 255, 255, 0, 0, 0, 0, 0] else [])
  ++ data

/-! ## Failure retention (src/lib/_ocrodjvu.py, Context.process lines 469-476,
Context.close lines 478-482, the assembler failure branch lines 444-448) -/

/-- One entry of the `results` dictionary: `None` (unclaimed), `True` (claimed,
line 393), a TextResult (Success), `False` (NoImage, line 398), or a stored
exception (Failure, line 400). -/
inductive Entry
  | unclaimed
  | taken
  | okRes
  | noImageRes
  | failRes
deriving DecidableEq

/-- Terminal entries of the result table. -/
def Entry.isTerminal : Entry → Bool
  | .okRes => true
  | .noImageRes => true
  | .failRes => true
  | _ => false

/-- Outcome of `Context.process_page` for a given page, abstracting the
external decode/render/OCR pipeline: a TextResult, the
`djvu.decode.NotAvailable` condition, or any other exception. -/
inductive Outcome
  | ok
  | noImage
  | err
deriving DecidableEq

/-- Wake kinds on the condition variable: `condition.notify()` wakes at most
one waiter; a broadcast (`notify_all`) would wake every waiter. -/
inductive NKind
  | one
  | all
deriving DecidableEq

/-- Ghost trace events. `locked` on a resolution records whether the results
write happened inside a `with condition:` block; `wake` is the wake issued in
that same block, if any. -/
inductive Ev
  | claimPage (w p : Nat)
  | resolvePage (w p : Nat) (o : Outcome) (locked : Bool) (wake : Option NKind)
  | lateWake (w : Nat) (k : NKind)
  | headerFor (p : Nat)
  | groupFor (p : Nat) (empty : Bool)
  | abortRun
deriving DecidableEq

/-- Worker control point in Context.page_thread: scanning the page list for an
unclaimed page, processing a claimed page `n`, about to issue the notify of
the exception path (lines 401-402), crashed out of the thread via `raise`
(line 403), or fell off the end of the page loop. -/
inductive WPhase
  | scanning
  | processing (n : Nat)
  | crashNote
  | crashed
  | ended
deriving DecidableEq

/-- Worker-local state: position in the page list plus control point. -/
structure WState where
  idx : Nat
  phase : WPhase
deriving DecidableEq

/-- Assembler control point in Context._process's per-page loop (lines
434-456): about to write the `select`/`set-txt` header for page `idx`, waiting
on the condition for that page's result, joining all workers after observing a
Failure (lines 445-446), exited via `sys.exit(1)` (line 448), or finished the
loop over all pages. -/
inductive ASub
  | toHeader
  | toWait
  | joining
  | exited
  | loopEnded
deriving DecidableEq

/-- Assembler state: current position, control point, pages whose
`select`/`set-txt` header lines were written, and completed per-page record
groups `(page, empty-body?)`. -/
structure AState where
  idx : Nat
  sub : ASub
  headers : List Nat
  groups : List (Nat × Bool)

/-- The whole shared state of one run of Context._process. -/
structure Sys where
  results : Nat → Entry
  workers : Nat → WState
  asm : AState
  debug : Bool
  events : List Ev

/-- Pointwise update of a function-represented table. -/
def upd {α : Type} (f : Nat → α) (k : Nat) (v : α) : Nat → α :=
  fun j => if j = k then v else f j

/-- Worker threads that `thread.join()` would no longer wait for. -/
def inactive : WPhase → Bool
  | .crashed => true
  | .ended => true
  | _ => false

/-- One atomic action of worker `w` running Context.page_thread (src/lib/
_ocrodjvu.py lines 384-407). Scanning performs the whole
`with condition:` test-and-set block of lines 387-393 atomically: a `None`
entry is flipped to `True`, anything else is skipped. Processing resolves the
claimed page in one step according to the pipeline outcome: TextResult and
`False` (NoImage) are written inside `with condition:` together with a
`condition.notify()` (lines 404-407); an exception is written at line 400
*outside* any lock, after which a separate locked step issues the notify of
lines 401-402 and the worker crashes on the re-raise. Workers beyond the
thread-pool size do not exist and do nothing. -/
def page_thread_step (pages : List Nat) (oracle : Nat → Outcome) (nW : Nat)
    (s : Sys) (w : Nat) : Sys :=
  if w < nW then
    match (s.workers w).phase with
    | .scanning =>
      match pages[(s.workers w).idx]? with
      | none => { s with workers := upd s.workers w { s.workers w with phase := .ended } }
      | some n =>
        if s.results n = .unclaimed then
          { s with
            results := upd s.results n .taken,
            workers := upd s.workers w { s.workers w with phase := .processing n },
            events := s.events ++ [.claimPage w n] }
        else
          { s with workers := upd s.workers w { s.workers w with idx := (s.workers w).idx + 1 } }
    | .processing n =>
      match oracle n with
      | .ok =>
        { s with
          results := upd s.results n .okRes,
          workers := upd s.workers w { idx := (s.workers w).idx + 1, phase := .scanning },
          events := s.events ++ [.resolvePage w n .ok true (some .one)] }
      | .noImage =>
        { s with
          results := upd s.results n .noImageRes,
          workers := upd s.workers w { idx := (s.workers w).idx + 1, phase := .scanning },
          events := s.events ++ [.resolvePage w n .noImage true (some .one)] }
      | .err =>
        { s with
          results := upd s.results n .failRes,
          workers := upd s.workers w { s.workers w with phase := .crashNote },
          events := s.events ++ [.resolvePage w n .err false none] }
    | .crashNote =>
      { s with
        workers := upd s.workers w { s.workers w with phase := .crashed },
        events := s.events ++ [.lateWake w .one] }
    | .crashed => s
    | .ended => s
  else s

/-- One atomic action of the main thread running the Context._process
assembler loop (src/lib/_ocrodjvu.py lines 434-456). For each page in request
order it writes the `select '<escaped-id>'` and `set-txt` header, then waits
under the condition until the page's entry is terminal: `None`/`True` wait
again; a TextResult or `False` (empty body) completes the page's record group
and advances; an exception sends it to join every worker thread, force the
debug (retention) flag and exit with status 1 (lines 444-448). -/
def process_step (pages : List Nat) (nW : Nat) (s : Sys) : Sys :=
  match s.asm.sub with
  | .toHeader =>
    match pages[s.asm.idx]? with
    | none => { s with asm := { s.asm with sub := .loopEnded } }
    | some n =>
      { s with
        asm := { s.asm with sub := .toWait, headers := s.asm.headers ++ [n] },
        events := s.events ++ [.headerFor n] }
  | .toWait =>
    match pages[s.asm.idx]? with
    | none => s
    | some n =>
      match s.results n with
      | .unclaimed => s
      | .taken => s
      | .okRes =>
        { s with
          asm := { s.asm with
                    sub := .toHeader
                    idx := s.asm.idx + 1
                    groups := s.asm.groups ++ [(n, false)] }
          events := s.events ++ [.groupFor n false] }
      | .noImageRes =>
        { s with
          asm := { s.asm with
                    sub := .toHeader
                    idx := s.asm.idx + 1
                    groups := s.asm.groups ++ [(n, true)] }
          events := s.events ++ [.groupFor n true] }
      | .failRes =>
        { s with
          asm := { s.asm with sub := .joining },
          events := s.events ++ [.abortRun] }
  | .joining =>
    if (List.range nW).all (fun w => inactive (s.workers w).phase) then
      { s with asm := { s.asm with sub := .exited }, debug := true }
    else s
  | .exited => s
  | .loopEnded => s

/-- Interleaving step: `some w` steps worker `w`, `none` steps the assembler. -/
def sched_step (pages : List Nat) (oracle : Nat → Outcome) (nW : Nat)
    (s : Sys) : Option Nat → Sys
  | some w => page_thread_step pages oracle nW s w
  | none => process_step pages nW s

/-- Initial state of a run: `results = dict((page.n, None) for page in pages)`
(line 422), all workers at the top of their page loop, the assembler at the
first page, debug off (the `--debug`-off configuration, where retention
matters), no events. -/
def init_sys : Sys :=
  { results := fun _ => .unclaimed,
    workers := fun _ => { idx := 0, phase := .scanning },
    asm := { idx := 0, sub := .toHeader, headers := [], groups := [] },
    debug := false,
    events := [] }

/-- Run the scheduler under an arbitrary interleaving. -/
def run_sched (pages : List Nat) (oracle : Nat → Outcome) (nW : Nat)
    (sched : List (Option Nat)) : Sys :=
  sched.foldl (sched_step pages oracle nW) init_sys

/-- Recognize a claim event on page `p`. -/
def isClaimOf (p : Nat) : Ev → Bool
  | .claimPage _ q => q == p
  | _ => false

/-- Recognize a resolution event on page `p`. -/
def isResolveOf (p : Nat) : Ev → Bool
  | .resolvePage _ q _ _ _ => q == p
  | _ => false

/-- Number of claim events on page `p` in a trace. -/
def claimsOn (p : Nat) (evs : List Ev) : Nat := evs.countP (isClaimOf p)

/-- Number of resolution events on page `p` in a trace. -/
def resolvesOn (p : Nat) (evs : List Ev) : Nat := evs.countP (isResolveOf p)

/-- Highest page-list position a worker is known to have passed: every earlier
position holds a non-`None` entry. -/
def scanBound (pages : List Nat) (ws : WState) : Nat :=
  match ws.phase with
  | .scanning => ws.idx
  | .processing _ => ws.idx + 1
  | .crashNote => 0
  | .crashed => 0
  | .ended => pages.length

/-- Number of pages whose `select`/`set-txt` header the assembler has written. -/
def headerBound (a : AState) : Nat :=
  match a.sub with
  | .toHeader => a.idx
  | .toWait => a.idx + 1
  | .joining => a.idx + 1
  | .exited => a.idx + 1
  | .loopEnded => a.idx

/-- Whether a pipeline outcome yields an empty text body in the script. -/
def emptyFlag : Outcome → Bool
  | .noImage => true
  | _ => false

/-- The inductive invariant of the scheduler, preserved by every step from the
initial state. -/
structure Inv (pages : List Nat) (oracle : Nat → Outcome) (nW : Nat) (s : Sys) : Prop where
  procTaken : ∀ w n, w < nW → (s.workers w).phase = .processing n → s.results n = .taken
  takenProc : ∀ n, s.results n = .taken → ∃ w, w < nW ∧ (s.workers w).phase = .processing n
  procUnique : ∀ w1 w2 n, w1 < nW → w2 < nW → (s.workers w1).phase = .processing n →
    (s.workers w2).phase = .processing n → w1 = w2
  procMem : ∀ w n, w < nW → (s.workers w).phase = .processing n → n ∈ pages
  claimsCount : ∀ n, claimsOn n s.events = if s.results n = .unclaimed then 0 else 1
  resolvesCount : ∀ n, resolvesOn n s.events =
    if s.results n = .unclaimed ∨ s.results n = .taken then 0 else 1
  procClaimed : ∀ w n, w < nW → (s.workers w).phase = .processing n →
    Ev.claimPage w n ∈ s.events
  resolveMatch : ∀ w n o l k, Ev.resolvePage w n o l k ∈ s.events →
    Ev.claimPage w n ∈ s.events
  resolveFlags : ∀ w n o l k, Ev.resolvePage w n o l k ∈ s.events →
    (o = .err ∧ l = false ∧ k = none) ∨ ((o = .ok ∨ o = .noImage) ∧ l = true ∧ k = some .one)
  oracleRes : ∀ n, (s.results n = .okRes → oracle n = .ok)
    ∧ (s.results n = .noImageRes → oracle n = .noImage)
    ∧ (s.results n = .failRes → oracle n = .err)
  resMem : ∀ n, s.results n ≠ .unclaimed → n ∈ pages
  scanned : ∀ w, w < nW → ∀ j n, j < scanBound pages (s.workers w) → pages[j]? = some n →
    s.results n ≠ .unclaimed
  asmHeaders : s.asm.headers = pages.take (headerBound s.asm)
  asmGroups : s.asm.groups = (pages.take s.asm.idx).map (fun p => (p, emptyFlag (oracle p)))
  asmLoopEnded : s.asm.sub = .loopEnded → pages.length ≤ s.asm.idx
  subAbortEv : s.asm.sub = .joining ∨ s.asm.sub = .exited → Ev.abortRun ∈ s.events
  debugAbort : s.debug = true → Ev.abortRun ∈ s.events
  abortEvErr : Ev.abortRun ∈ s.events → ∃ p, p ∈ pages ∧ oracle p = .err
  abortEvFail : Ev.abortRun ∈ s.events → s.asm.sub = .joining ∨ s.asm.sub = .exited
  exitedInv : s.asm.sub = .exited → s.debug = true ∧ ∀ w, w < nW →
    inactive (s.workers w).phase = true

/-! ## Theorems for the pure helpers -/

lemma parseAll_foldl (items : List (List Char)) (r : List Int) :
    items.foldl
      (fun acc item => acc.bind (fun l => (parseItem item).map (fun x => l ++ x)))
      (some r)
      = (parseAll items).map (fun ls => r ++ ls.flatten) := by
  induction items generalizing r with
  | nil => simp [parseAll]
  | cons i rest ih =>
    cases h : parseItem i with
    | none =>
      have : ∀ l : List (List Char),
          l.foldl
            (fun acc item => acc.bind (fun l => (parseItem item).map (fun x => l ++ x)))
            none = none := by
        intro l
        induction l with
        | nil => rfl
        | cons a t iht => simpa using iht
      simp [parseAll, h, this]
    | some x =>
      simp [parseAll, h, List.foldl_cons, ih (r ++ x), Option.map_map]
      cases parseAll rest with
      | none => rfl
      | some ls => simp [List.append_assoc]

lemma pyReplaceChar_append (old : Char) (new : List Char) (l1 l2 : List Char) :
    pyReplaceChar old new (l1 ++ l2)
      = pyReplaceChar old new l1 ++ pyReplaceChar old new l2 := by
  induction l1 with
  | nil => rfl
  | cons c rest ih => simp [pyReplaceChar, ih]

lemma escape_file_id_cons (c : Char) (s : List Char) :
    escape_file_id (c :: s) = escapeChar c ++ escape_file_id s := by
  unfold escape_file_id escapeChar
  by_cases hb : c = '\\'
  · subst hb
    simp [pyReplaceChar]
  · by_cases hq : c = '\''
    · subst hq
      simp [pyReplaceChar]
    · simp [pyReplaceChar, hb, hq]

lemma escape_file_id_eq_flatMap (s : List Char) :
    escape_file_id s = s.flatMap escapeChar := by
  induction s with
  | nil => rfl
  | cons c rest ih => simp [escape_file_id_cons, ih]

lemma unescape_cons_ne (c : Char) (h : ¬ c = '\\') (l : List Char) :
    unescape_file_id (c :: l) = c :: unescape_file_id l := by
  cases l <;> simp [unescape_file_id, h]

lemma unescape_escape (s : List Char) :
    unescape_file_id (escape_file_id s) = s := by
  induction s with
  | nil => rfl
  | cons c rest ih =>
    rw [escape_file_id_cons]
    unfold escapeChar
    by_cases hb : c = '\\'
    · subst hb
      simpa [unescape_file_id] using ih
    · by_cases hq : c = '\''
      · subst hq
        simp only [if_neg hb, if_pos rfl]
        simpa [unescape_file_id] using ih
      · simp only [if_neg hb, if_neg hq, List.singleton_append]
        rw [unescape_cons_ne c hb]
        exact congrArg (c :: ·) ih

/-! ## Scheduler invariant preservation -/

lemma upd_same {α : Type} (f : Nat → α) (k : Nat) (v : α) : upd f k v k = v := by
  simp [upd]

lemma upd_of_ne {α : Type} (f : Nat → α) {j k : Nat} (v : α) (h : j ≠ k) :
    upd f k v j = f j := by
  simp [upd, h]

lemma ne_unclaimed_upd {m : Nat → Entry} {n q : Nat} {v : Entry}
    (hv : v ≠ Entry.unclaimed) (h : m q ≠ .unclaimed) : upd m n v q ≠ .unclaimed := by
  by_cases hq : q = n
  · subst hq
    rw [upd_same]
    exact hv
  · rw [upd_of_ne _ _ hq]
    exact h

lemma claimsOn_append (p : Nat) (l1 l2 : List Ev) :
    claimsOn p (l1 ++ l2) = claimsOn p l1 + claimsOn p l2 :=
  List.countP_append _ _ _

lemma resolvesOn_append (p : Nat) (l1 l2 : List Ev) :
    resolvesOn p (l1 ++ l2) = resolvesOn p l1 + resolvesOn p l2 :=
  List.countP_append _ _ _

lemma claimsOn_claim_single (p w q : Nat) :
    claimsOn p [Ev.claimPage w q] = if q = p then 1 else 0 := by
  by_cases h : q = p <;> simp [claimsOn, isClaimOf, List.countP_cons, h]

lemma claimsOn_resolve_single (p w q : Nat) (o : Outcome) (l : Bool) (k : Option NKind) :
    claimsOn p [Ev.resolvePage w q o l k] = 0 := by
  simp [claimsOn, isClaimOf, List.countP_cons]

lemma claimsOn_lateWake_single (p w : Nat) (k : NKind) :
    claimsOn p [Ev.lateWake w k] = 0 := by
  simp [claimsOn, isClaimOf, List.countP_cons]

lemma claimsOn_headerFor_single (p q : Nat) : claimsOn p [Ev.headerFor q] = 0 := by
  simp [claimsOn, isClaimOf, List.countP_cons]

lemma claimsOn_groupFor_single (p q : Nat) (e : Bool) : claimsOn p [Ev.groupFor q e] = 0 := by
  simp [claimsOn, isClaimOf, List.countP_cons]

lemma claimsOn_abortRun_single (p : Nat) : claimsOn p [Ev.abortRun] = 0 := by
  simp [claimsOn, isClaimOf, List.countP_cons]

lemma resolvesOn_resolve_single (p w q : Nat) (o : Outcome) (l : Bool) (k : Option NKind) :
    resolvesOn p [Ev.resolvePage w q o l k] = if q = p then 1 else 0 := by
  by_cases h : q = p <;> simp [resolvesOn, isResolveOf, List.countP_cons, h]

lemma resolvesOn_claim_single (p w q : Nat) :
    resolvesOn p [Ev.claimPage w q] = 0 := by
  simp [resolvesOn, isResolveOf, List.countP_cons]

lemma resolvesOn_lateWake_single (p w : Nat) (k : NKind) :
    resolvesOn p [Ev.lateWake w k] = 0 := by
  simp [resolvesOn, isResolveOf, List.countP_cons]

lemma resolvesOn_headerFor_single (p q : Nat) : resolvesOn p [Ev.headerFor q] = 0 := by
  simp [resolvesOn, isResolveOf, List.countP_cons]

lemma resolvesOn_groupFor_single (p q : Nat) (e : Bool) :
    resolvesOn p [Ev.groupFor q e] = 0 := by
  simp [resolvesOn, isResolveOf, List.countP_cons]

lemma resolvesOn_abortRun_single (p : Nat) : resolvesOn p [Ev.abortRun] = 0 := by
  simp [resolvesOn, isResolveOf, List.countP_cons]

lemma inv_init (pages : List Nat) (oracle : Nat → Outcome) (nW : Nat) :
    Inv pages oracle nW init_sys := by
  constructor <;>
    intros <;>
    simp_all [init_sys, claimsOn, resolvesOn, isClaimOf, isResolveOf, scanBound,
      headerBound]

lemma inv_step_claim (pages : List Nat) (oracle : Nat → Outcome) (nW : Nat)
    (s : Sys) (w n : Nat) (h : Inv pages oracle nW s)
    (hw : w < nW) (hph : (s.workers w).phase = .scanning)
    (hpg : pages[(s.workers w).idx]? = some n) (hres : s.results n = .unclaimed) :
    Inv pages oracle nW
      { s with
        results := upd s.results n .taken
        workers := upd s.workers w { s.workers w with phase := .processing n }
        events := s.events ++ [.claimPage w n] } := by
  have hnmem : n ∈ pages := List.getElem?_mem hpg
  refine
    { procTaken := ?_, takenProc := ?_, procUnique := ?_, procMem := ?_,
      claimsCount := ?_, resolvesCount := ?_, procClaimed := ?_, resolveMatch := ?_,
      resolveFlags := ?_, oracleRes := ?_, resMem := ?_, scanned := ?_,
      asmHeaders := ?_, asmGroups := ?_, asmLoopEnded := ?_, subAbortEv := ?_,
      debugAbort := ?_, abortEvErr := ?_, abortEvFail := ?_, exitedInv := ?_ }
  · -- procTaken
    intro v m hv hproc
    dsimp only at hproc ⊢
    by_cases hvw : v = w
    · subst hvw
      rw [upd_same] at hproc
      dsimp only at hproc
      cases hproc
      rw [upd_same]
    · rw [upd_of_ne _ _ hvw] at hproc
      have hm := h.procTaken v m hv hproc
      have hmn : m ≠ n := by
        intro e
        subst e
        rw [hm] at hres
        exact absurd hres (by decide)
      rw [upd_of_ne _ _ hmn]
      exact hm
  · -- takenProc
    intro m hm
    dsimp only at hm ⊢
    by_cases hmn : m = n
    · subst hmn
      exact ⟨w, hw, by rw [upd_same]⟩
    · rw [upd_of_ne _ _ hmn] at hm
      obtain ⟨v, hv, hproc⟩ := h.takenProc m hm
      have hvw : v ≠ w := by
        intro e
        subst e
        rw [hph] at hproc
        exact absurd hproc (by simp)
      exact ⟨v, hv, by rw [upd_of_ne _ _ hvw]; exact hproc⟩
  · -- procUnique
    intro v1 v2 m hv1 hv2 h1 h2
    dsimp only at h1 h2
    by_cases e1 : v1 = w
    · by_cases e2 : v2 = w
      · rw [e1, e2]
      · exfalso
        subst e1
        rw [upd_of_ne _ _ e2] at h2
        have := h.procTaken v2 m hv2 h2
        rw [upd_same] at h1
        dsimp only at h1
        cases h1
        rw [this] at hres
        exact absurd hres (by decide)
    · by_cases e2 : v2 = w
      · exfalso
        subst e2
        rw [upd_of_ne _ _ e1] at h1
        have := h.procTaken v1 m hv1 h1
        rw [upd_same] at h2
        dsimp only at h2
        cases h2
        rw [this] at hres
        exact absurd hres (by decide)
      · rw [upd_of_ne _ _ e1] at h1
        rw [upd_of_ne _ _ e2] at h2
        exact h.procUnique v1 v2 m hv1 hv2 h1 h2
  · -- procMem
    intro v m hv hproc
    dsimp only at hproc
    by_cases hvw : v = w
    · subst hvw
      rw [upd_same] at hproc
      dsimp only at hproc
      cases hproc
      exact hnmem
    · rw [upd_of_ne _ _ hvw] at hproc
      exact h.procMem v m hv hproc
  · -- claimsCount
    intro m
    dsimp only
    rw [claimsOn_append, claimsOn_claim_single, h.claimsCount m]
    by_cases hmn : m = n
    · subst hmn
      rw [upd_same, if_pos hres]
      simp
    · rw [upd_of_ne _ _ hmn, if_neg (Ne.symm hmn)]
      simp
  · -- resolvesCount
    intro m
    dsimp only
    rw [resolvesOn_append, resolvesOn_claim_single, h.resolvesCount m]
    by_cases hmn : m = n
    · subst hmn
      rw [upd_same]
      simp [hres]
    · rw [upd_of_ne _ _ hmn]
      simp
  · -- procClaimed
    intro v m hv hproc
    dsimp only at hproc ⊢
    by_cases hvw : v = w
    · subst hvw
      rw [upd_same] at hproc
      dsimp only at hproc
      cases hproc
      exact List.mem_append_right _ (by simp)
    · rw [upd_of_ne _ _ hvw] at hproc
      exact List.mem_append_left _ (h.procClaimed v m hv hproc)
  · -- resolveMatch
    intro v m o l k hm
    dsimp only at hm ⊢
    rcases List.mem_append.mp hm with hm | hm
    · exact List.mem_append_left _ (h.resolveMatch v m o l k hm)
    · simp at hm
  · -- resolveFlags
    intro v m o l k hm
    dsimp only at hm
    rcases List.mem_append.mp hm with hm | hm
    · exact h.resolveFlags v m o l k hm
    · simp at hm
  · -- oracleRes
    intro m
    dsimp only
    by_cases hmn : m = n
    · subst hmn
      rw [upd_same]
      refine ⟨?_, ?_, ?_⟩ <;> intro e <;> exact absurd e (by decide)
    · rw [upd_of_ne _ _ hmn]
      exact h.oracleRes m
  · -- resMem
    intro m hm
    dsimp only at hm
    by_cases hmn : m = n
    · subst hmn
      exact hnmem
    · rw [upd_of_ne _ _ hmn] at hm
      exact h.resMem m hm
  · -- scanned
    intro v hv j m hj hjm
    dsimp only at hj ⊢
    by_cases hvw : v = w
    · subst hvw
      rw [upd_same] at hj
      have hb : scanBound pages { s.workers v with phase := .processing n }
          = (s.workers v).idx + 1 := rfl
      rw [hb] at hj
      rcases Nat.lt_succ_iff_lt_or_eq.mp hj with hj | hj
      · have hold := h.scanned v hv j m (by rw [scanBound, hph]; exact hj) hjm
        exact ne_unclaimed_upd (by decide) hold
      · subst hj
        rw [hjm] at hpg
        cases hpg
        rw [upd_same]
        decide
    · rw [upd_of_ne _ _ hvw] at hj
      have hold := h.scanned v hv j m hj hjm
      exact ne_unclaimed_upd (by decide) hold
  · -- asmHeaders
    exact h.asmHeaders
  · -- asmGroups
    exact h.asmGroups
  · -- asmLoopEnded
    exact h.asmLoopEnded
  · -- subAbortEv
    intro hsub
    exact List.mem_append_left _ (h.subAbortEv hsub)
  · -- debugAbort
    intro hd
    exact List.mem_append_left _ (h.debugAbort hd)
  · -- abortEvErr
    intro hab
    dsimp only at hab
    rcases List.mem_append.mp hab with hab | hab
    · exact h.abortEvErr hab
    · simp at hab
  · -- abortEvFail
    intro hab
    dsimp only at hab ⊢
    rcases List.mem_append.mp hab with hab | hab
    · exact h.abortEvFail hab
    · simp at hab
  · -- exitedInv
    intro hex
    dsimp only at hex
    exfalso
    obtain ⟨-, hall⟩ := h.exitedInv hex
    have := hall w hw
    rw [hph] at this
    exact absurd this (by decide)

lemma inv_step_resolve_good (pages : List Nat) (oracle : Nat → Outcome) (nW : Nat)
    (s : Sys) (w n : Nat) (o : Outcome) (ent : Entry) (h : Inv pages oracle nW s)
    (hw : w < nW) (hph : (s.workers w).phase = .processing n)
    (ho : oracle n = o)
    (hoent : (o = .ok ∧ ent = .okRes) ∨ (o = .noImage ∧ ent = .noImageRes)) :
    Inv pages oracle nW
      { s with
        results := upd s.results n ent
        workers := upd s.workers w { idx := (s.workers w).idx + 1, phase := .scanning }
        events := s.events ++ [.resolvePage w n o true (some .one)] } := by
  have htaken : s.results n = .taken := h.procTaken w n hw hph
  have hentne : ent ≠ .unclaimed := by
    rcases hoent with ⟨-, he⟩ | ⟨-, he⟩ <;> subst he <;> decide
  have hnmem : n ∈ pages := h.procMem w n hw hph
  refine
    { procTaken := ?_, takenProc := ?_, procUnique := ?_, procMem := ?_,
      claimsCount := ?_, resolvesCount := ?_, procClaimed := ?_, resolveMatch := ?_,
      resolveFlags := ?_, oracleRes := ?_, resMem := ?_, scanned := ?_,
      asmHeaders := ?_, asmGroups := ?_, asmLoopEnded := ?_, subAbortEv := ?_,
      debugAbort := ?_, abortEvErr := ?_, abortEvFail := ?_, exitedInv := ?_ }
  · -- procTaken
    intro v m hv hproc
    dsimp only at hproc ⊢
    by_cases hvw : v = w
    · subst hvw
      rw [upd_same] at hproc
      exact absurd hproc (by simp)
    · rw [upd_of_ne _ _ hvw] at hproc
      have hm := h.procTaken v m hv hproc
      have hmn : m ≠ n := by
        intro e
        subst e
        exact hvw (h.procUnique v w m hv hw hproc hph)
      rw [upd_of_ne _ _ hmn]
      exact hm
  · -- takenProc
    intro m hm
    dsimp only at hm ⊢
    by_cases hmn : m = n
    · subst hmn
      rw [upd_same] at hm
      rcases hoent with ⟨-, he⟩ | ⟨-, he⟩ <;> rw [he] at hm <;> exact absurd hm (by decide)
    · rw [upd_of_ne _ _ hmn] at hm
      obtain ⟨v, hv, hproc⟩ := h.takenProc m hm
      have hvw : v ≠ w := by
        intro e
        subst e
        rw [hph] at hproc
        exact hmn (by cases hproc; rfl)
      exact ⟨v, hv, by rw [upd_of_ne _ _ hvw]; exact hproc⟩
  · -- procUnique
    intro v1 v2 m hv1 hv2 h1 h2
    dsimp only at h1 h2
    by_cases e1 : v1 = w
    · subst e1
      rw [upd_same] at h1
      exact absurd h1 (by simp)
    · by_cases e2 : v2 = w
      · subst e2
        rw [upd_same] at h2
        exact absurd h2 (by simp)
      · rw [upd_of_ne _ _ e1] at h1
        rw [upd_of_ne _ _ e2] at h2
        exact h.procUnique v1 v2 m hv1 hv2 h1 h2
  · -- procMem
    intro v m hv hproc
    dsimp only at hproc
    by_cases hvw : v = w
    · subst hvw
      rw [upd_same] at hproc
      exact absurd hproc (by simp)
    · rw [upd_of_ne _ _ hvw] at hproc
      exact h.procMem v m hv hproc
  · -- claimsCount
    intro m
    dsimp only
    rw [claimsOn_append, claimsOn_resolve_single, h.claimsCount m]
    by_cases hmn : m = n
    · subst hmn
      rw [upd_same, if_neg (show ¬s.results m = Entry.unclaimed by rw [htaken]; decide),
        if_neg hentne]
    · rw [upd_of_ne _ _ hmn]
      simp
  · -- resolvesCount
    intro m
    dsimp only
    rw [resolvesOn_append, resolvesOn_resolve_single, h.resolvesCount m]
    by_cases hmn : m = n
    · subst hmn
      rw [upd_same, if_pos rfl, if_pos (Or.inr htaken),
        if_neg (show ¬(ent = Entry.unclaimed ∨ ent = Entry.taken) by
          rcases hoent with ⟨-, he⟩ | ⟨-, he⟩ <;> subst he <;> decide)]
    · rw [upd_of_ne _ _ hmn, if_neg (Ne.symm hmn)]
      simp
  · -- procClaimed
    intro v m hv hproc
    dsimp only at hproc ⊢
    by_cases hvw : v = w
    · subst hvw
      rw [upd_same] at hproc
      exact absurd hproc (by simp)
    · rw [upd_of_ne _ _ hvw] at hproc
      exact List.mem_append_left _ (h.procClaimed v m hv hproc)
  · -- resolveMatch
    intro v m o2 l k hm
    dsimp only at hm ⊢
    rcases List.mem_append.mp hm with hm | hm
    · exact List.mem_append_left _ (h.resolveMatch v m o2 l k hm)
    · simp only [List.mem_singleton, Ev.resolvePage.injEq] at hm
      obtain ⟨hvw, hmn, -, -, -⟩ := hm
      subst hvw
      subst hmn
      exact List.mem_append_left _ (h.procClaimed v m hw hph)
  · -- resolveFlags
    intro v m o2 l k hm
    dsimp only at hm
    rcases List.mem_append.mp hm with hm | hm
    · exact h.resolveFlags v m o2 l k hm
    · simp only [List.mem_singleton, Ev.resolvePage.injEq] at hm
      obtain ⟨-, -, ho2, hl, hk⟩ := hm
      subst ho2
      subst hl
      subst hk
      rcases hoent with ⟨he, -⟩ | ⟨he, -⟩ <;> subst he
      · exact Or.inr ⟨Or.inl rfl, rfl, rfl⟩
      · exact Or.inr ⟨Or.inr rfl, rfl, rfl⟩
  · -- oracleRes
    intro m
    dsimp only
    by_cases hmn : m = n
    · subst hmn
      rw [upd_same]
      rcases hoent with ⟨he, hee⟩ | ⟨he, hee⟩
      · subst he
        subst hee
        exact ⟨fun _ => ho, fun e => absurd e (by decide), fun e => absurd e (by decide)⟩
      · subst he
        subst hee
        exact ⟨fun e => absurd e (by decide), fun _ => ho, fun e => absurd e (by decide)⟩
    · rw [upd_of_ne _ _ hmn]
      exact h.oracleRes m
  · -- resMem
    intro m hm
    dsimp only at hm
    by_cases hmn : m = n
    · subst hmn
      exact hnmem
    · rw [upd_of_ne _ _ hmn] at hm
      exact h.resMem m hm
  · -- scanned
    intro v hv j m hj hjm
    dsimp only at hj ⊢
    by_cases hvw : v = w
    · subst hvw
      rw [upd_same] at hj
      have hb : scanBound pages { idx := (s.workers v).idx + 1, phase := WPhase.scanning }
          = (s.workers v).idx + 1 := rfl
      rw [hb] at hj
      have hold := h.scanned v hv j m (by rw [scanBound, hph]; exact hj) hjm
      exact ne_unclaimed_upd hentne hold
    · rw [upd_of_ne _ _ hvw] at hj
      exact ne_unclaimed_upd hentne (h.scanned v hv j m hj hjm)
  · exact h.asmHeaders
  · exact h.asmGroups
  · exact h.asmLoopEnded
  · intro hsub
    exact List.mem_append_left _ (h.subAbortEv hsub)
  · intro hd
    exact List.mem_append_left _ (h.debugAbort hd)
  · intro hab
    dsimp only at hab
    rcases List.mem_append.mp hab with hab | hab
    · exact h.abortEvErr hab
    · simp at hab
  · intro hab
    dsimp only at hab ⊢
    rcases List.mem_append.mp hab with hab | hab
    · exact h.abortEvFail hab
    · simp at hab
  · -- exitedInv
    intro hex
    dsimp only at hex
    exfalso
    obtain ⟨-, hall⟩ := h.exitedInv hex
    have := hall w hw
    rw [hph] at this
    simp [inactive] at this

lemma inv_step_resolve_err (pages : List Nat) (oracle : Nat → Outcome) (nW : Nat)
    (s : Sys) (w n : Nat) (h : Inv pages oracle nW s)
    (hw : w < nW) (hph : (s.workers w).phase = .processing n)
    (ho : oracle n = .err) :
    Inv pages oracle nW
      { s with
        results := upd s.results n .failRes
        workers := upd s.workers w { s.workers w with phase := .crashNote }
        events := s.events ++ [.resolvePage w n .err false none] } := by
  have htaken : s.results n = .taken := h.procTaken w n hw hph
  have hnmem : n ∈ pages := h.procMem w n hw hph
  refine
    { procTaken := ?_, takenProc := ?_, procUnique := ?_, procMem := ?_,
      claimsCount := ?_, resolvesCount := ?_, procClaimed := ?_, resolveMatch := ?_,
      resolveFlags := ?_, oracleRes := ?_, resMem := ?_, scanned := ?_,
      asmHeaders := ?_, asmGroups := ?_, asmLoopEnded := ?_, subAbortEv := ?_,
      debugAbort := ?_, abortEvErr := ?_, abortEvFail := ?_, exitedInv := ?_ }
  · -- procTaken
    intro v m hv hproc
    dsimp only at hproc ⊢
    by_cases hvw : v = w
    · subst hvw
      rw [upd_same] at hproc
      exact absurd hproc (by simp)
    · rw [upd_of_ne _ _ hvw] at hproc
      have hm := h.procTaken v m hv hproc
      have hmn : m ≠ n := by
        intro e
        subst e
        exact hvw (h.procUnique v w m hv hw hproc hph)
      rw [upd_of_ne _ _ hmn]
      exact hm
  · -- takenProc
    intro m hm
    dsimp only at hm ⊢
    by_cases hmn : m = n
    · subst hmn
      rw [upd_same] at hm
      exact absurd hm (by decide)
    · rw [upd_of_ne _ _ hmn] at hm
      obtain ⟨v, hv, hproc⟩ := h.takenProc m hm
      have hvw : v ≠ w := by
        intro e
        subst e
        rw [hph] at hproc
        exact hmn (by cases hproc; rfl)
      exact ⟨v, hv, by rw [upd_of_ne _ _ hvw]; exact hproc⟩
  · -- procUnique
    intro v1 v2 m hv1 hv2 h1 h2
    dsimp only at h1 h2
    by_cases e1 : v1 = w
    · subst e1
      rw [upd_same] at h1
      exact absurd h1 (by simp)
    · by_cases e2 : v2 = w
      · subst e2
        rw [upd_same] at h2
        exact absurd h2 (by simp)
      · rw [upd_of_ne _ _ e1] at h1
        rw [upd_of_ne _ _ e2] at h2
        exact h.procUnique v1 v2 m hv1 hv2 h1 h2
  · -- procMem
    intro v m hv hproc
    dsimp only at hproc
    by_cases hvw : v = w
    · subst hvw
      rw [upd_same] at hproc
      exact absurd hproc (by simp)
    · rw [upd_of_ne _ _ hvw] at hproc
      exact h.procMem v m hv hproc
  · -- claimsCount
    intro m
    dsimp only
    rw [claimsOn_append, claimsOn_resolve_single, h.claimsCount m]
    by_cases hmn : m = n
    · subst hmn
      rw [upd_same, if_neg (show ¬s.results m = Entry.unclaimed by rw [htaken]; decide),
        if_neg (by decide)]
    · rw [upd_of_ne _ _ hmn]
      simp
  · -- resolvesCount
    intro m
    dsimp only
    rw [resolvesOn_append, resolvesOn_resolve_single, h.resolvesCount m]
    by_cases hmn : m = n
    · subst hmn
      rw [upd_same, if_pos rfl, if_pos (Or.inr htaken), if_neg (by decide)]
    · rw [upd_of_ne _ _ hmn, if_neg (Ne.symm hmn)]
      simp
  · -- procClaimed
    intro v m hv hproc
    dsimp only at hproc ⊢
    by_cases hvw : v = w
    · subst hvw
      rw [upd_same] at hproc
      exact absurd hproc (by simp)
    · rw [upd_of_ne _ _ hvw] at hproc
      exact List.mem_append_left _ (h.procClaimed v m hv hproc)
  · -- resolveMatch
    intro v m o2 l k hm
    dsimp only at hm ⊢
    rcases List.mem_append.mp hm with hm | hm
    · exact List.mem_append_left _ (h.resolveMatch v m o2 l k hm)
    · simp only [List.mem_singleton, Ev.resolvePage.injEq] at hm
      obtain ⟨hvw, hmn, -, -, -⟩ := hm
      subst hvw
      subst hmn
      exact List.mem_append_left _ (h.procClaimed v m hw hph)
  · -- resolveFlags
    intro v m o2 l k hm
    dsimp only at hm
    rcases List.mem_append.mp hm with hm | hm
    · exact h.resolveFlags v m o2 l k hm
    · simp only [List.mem_singleton, Ev.resolvePage.injEq] at hm
      obtain ⟨-, -, ho2, hl, hk⟩ := hm
      subst ho2
      subst hl
      subst hk
      exact Or.inl ⟨rfl, rfl, rfl⟩
  · -- oracleRes
    intro m
    dsimp only
    by_cases hmn : m = n
    · subst hmn
      rw [upd_same]
      exact ⟨fun e => absurd e (by decide), fun e => absurd e (by decide), fun _ => ho⟩
    · rw [upd_of_ne _ _ hmn]
      exact h.oracleRes m
  · -- resMem
    intro m hm
    dsimp only at hm
    by_cases hmn : m = n
    · subst hmn
      exact hnmem
    · rw [upd_of_ne _ _ hmn] at hm
      exact h.resMem m hm
  · -- scanned
    intro v hv j m hj hjm
    dsimp only at hj ⊢
    by_cases hvw : v = w
    · subst hvw
      rw [upd_same] at hj
      exact absurd hj (Nat.not_lt_zero j)
    · rw [upd_of_ne _ _ hvw] at hj
      exact ne_unclaimed_upd (by decide) (h.scanned v hv j m hj hjm)
  · exact h.asmHeaders
  · exact h.asmGroups
  · exact h.asmLoopEnded
  · intro hsub
    exact List.mem_append_left _ (h.subAbortEv hsub)
  · intro hd
    exact List.mem_append_left _ (h.debugAbort hd)
  · intro hab
    dsimp only at hab
    rcases List.mem_append.mp hab with hab | hab
    · exact h.abortEvErr hab
    · simp at hab
  · intro hab
    dsimp only at hab ⊢
    rcases List.mem_append.mp hab with hab | hab
    · exact h.abortEvFail hab
    · simp at hab
  · -- exitedInv
    intro hex
    dsimp only at hex
    exfalso
    obtain ⟨-, hall⟩ := h.exitedInv hex
    have := hall w hw
    rw [hph] at this
    simp [inactive] at this

lemma inv_step_skip (pages : List Nat) (oracle : Nat → Outcome) (nW : Nat)
    (s : Sys) (w n : Nat) (h : Inv pages oracle nW s)
    (hw : w < nW) (hph : (s.workers w).phase = .scanning)
    (hpg : pages[(s.workers w).idx]? = some n) (hres : ¬ s.results n = .unclaimed) :
    Inv pages oracle nW
      { s with
        workers := upd s.workers w { s.workers w with idx := (s.workers w).idx + 1 } } := by
  refine
    { procTaken := ?_, takenProc := ?_, procUnique := ?_, procMem := ?_,
      claimsCount := ?_, resolvesCount := ?_, procClaimed := ?_, resolveMatch := ?_,
      resolveFlags := ?_, oracleRes := ?_, resMem := ?_, scanned := ?_,
      asmHeaders := ?_, asmGroups := ?_, asmLoopEnded := ?_, subAbortEv := ?_,
      debugAbort := ?_, abortEvErr := ?_, abortEvFail := ?_, exitedInv := ?_ }
  · intro v m hv hproc
    dsimp only at hproc ⊢
    by_cases hvw : v = w
    · subst hvw
      rw [upd_same] at hproc
      dsimp only at hproc
      rw [hph] at hproc
      exact absurd hproc (by simp)
    · rw [upd_of_ne _ _ hvw] at hproc
      exact h.procTaken v m hv hproc
  · intro m hm
    dsimp only at hm ⊢
    obtain ⟨v, hv, hproc⟩ := h.takenProc m hm
    have hvw : v ≠ w := by
      intro e
      subst e
      rw [hph] at hproc
      exact absurd hproc (by simp)
    exact ⟨v, hv, by rw [upd_of_ne _ _ hvw]; exact hproc⟩
  · intro v1 v2 m hv1 hv2 h1 h2
    dsimp only at h1 h2
    by_cases e1 : v1 = w
    · subst e1
      rw [upd_same] at h1
      dsimp only at h1
      rw [hph] at h1
      exact absurd h1 (by simp)
    · by_cases e2 : v2 = w
      · subst e2
        rw [upd_same] at h2
        dsimp only at h2
        rw [hph] at h2
        exact absurd h2 (by simp)
      · rw [upd_of_ne _ _ e1] at h1
        rw [upd_of_ne _ _ e2] at h2
        exact h.procUnique v1 v2 m hv1 hv2 h1 h2
  · intro v m hv hproc
    dsimp only at hproc
    by_cases hvw : v = w
    · subst hvw
      rw [upd_same] at hproc
      dsimp only at hproc
      rw [hph] at hproc
      exact absurd hproc (by simp)
    · rw [upd_of_ne _ _ hvw] at hproc
      exact h.procMem v m hv hproc
  · intro m
    exact h.claimsCount m
  · intro m
    exact h.resolvesCount m
  · intro v m hv hproc
    dsimp only at hproc ⊢
    by_cases hvw : v = w
    · subst hvw
      rw [upd_same] at hproc
      dsimp only at hproc
      rw [hph] at hproc
      exact absurd hproc (by simp)
    · rw [upd_of_ne _ _ hvw] at hproc
      exact h.procClaimed v m hv hproc
  · intro v m o2 l k hm
    exact h.resolveMatch v m o2 l k hm
  · intro v m o2 l k hm
    exact h.resolveFlags v m o2 l k hm
  · intro m
    exact h.oracleRes m
  · intro m hm
    exact h.resMem m hm
  · intro v hv j m hj hjm
    dsimp only at hj ⊢
    by_cases hvw : v = w
    · subst hvw
      rw [upd_same] at hj
      have hb : scanBound pages { s.workers v with idx := (s.workers v).idx + 1 }
          = (s.workers v).idx + 1 := by
        rw [scanBound]
        dsimp only
        rw [hph]
      rw [hb] at hj
      rcases Nat.lt_succ_iff_lt_or_eq.mp hj with hj | hj
      · exact h.scanned v hv j m (by rw [scanBound, hph]; exact hj) hjm
      · subst hj
        rw [hjm] at hpg
        cases hpg
        exact hres
    · rw [upd_of_ne _ _ hvw] at hj
      exact h.scanned v hv j m hj hjm
  · exact h.asmHeaders
  · exact h.asmGroups
  · exact h.asmLoopEnded
  · exact h.subAbortEv
  · exact h.debugAbort
  · exact h.abortEvErr
  · exact h.abortEvFail
  · intro hex
    dsimp only at hex
    exfalso
    obtain ⟨-, hall⟩ := h.exitedInv hex
    have := hall w hw
    rw [hph] at this
    simp [inactive] at this

lemma inv_step_ended (pages : List Nat) (oracle : Nat → Outcome) (nW : Nat)
    (s : Sys) (w : Nat) (h : Inv pages oracle nW s)
    (hw : w < nW) (hph : (s.workers w).phase = .scanning)
    (hpg : pages[(s.workers w).idx]? = none) :
    Inv pages oracle nW
      { s with workers := upd s.workers w { s.workers w with phase := .ended } } := by
  have hlen : pages.length ≤ (s.workers w).idx := List.getElem?_eq_none_iff.mp hpg
  refine
    { procTaken := ?_, takenProc := ?_, procUnique := ?_, procMem := ?_,
      claimsCount := ?_, resolvesCount := ?_, procClaimed := ?_, resolveMatch := ?_,
      resolveFlags := ?_, oracleRes := ?_, resMem := ?_, scanned := ?_,
      asmHeaders := ?_, asmGroups := ?_, asmLoopEnded := ?_, subAbortEv := ?_,
      debugAbort := ?_, abortEvErr := ?_, abortEvFail := ?_, exitedInv := ?_ }
  · intro v m hv hproc
    dsimp only at hproc ⊢
    by_cases hvw : v = w
    · subst hvw
      rw [upd_same] at hproc
      exact absurd hproc (by simp)
    · rw [upd_of_ne _ _ hvw] at hproc
      exact h.procTaken v m hv hproc
  · intro m hm
    dsimp only at hm ⊢
    obtain ⟨v, hv, hproc⟩ := h.takenProc m hm
    have hvw : v ≠ w := by
      intro e
      subst e
      rw [hph] at hproc
      exact absurd hproc (by simp)
    exact ⟨v, hv, by rw [upd_of_ne _ _ hvw]; exact hproc⟩
  · intro v1 v2 m hv1 hv2 h1 h2
    dsimp only at h1 h2
    by_cases e1 : v1 = w
    · subst e1
      rw [upd_same] at h1
      exact absurd h1 (by simp)
    · by_cases e2 : v2 = w
      · subst e2
        rw [upd_same] at h2
        exact absurd h2 (by simp)
      · rw [upd_of_ne _ _ e1] at h1
        rw [upd_of_ne _ _ e2] at h2
        exact h.procUnique v1 v2 m hv1 hv2 h1 h2
  · intro v m hv hproc
    dsimp only at hproc
    by_cases hvw : v = w
    · subst hvw
      rw [upd_same] at hproc
      exact absurd hproc (by simp)
    · rw [upd_of_ne _ _ hvw] at hproc
      exact h.procMem v m hv hproc
  · intro m
    exact h.claimsCount m
  · intro m
    exact h.resolvesCount m
  · intro v m hv hproc
    dsimp only at hproc ⊢
    by_cases hvw : v = w
    · subst hvw
      rw [upd_same] at hproc
      exact absurd hproc (by simp)
    · rw [upd_of_ne _ _ hvw] at hproc
      exact h.procClaimed v m hv hproc
  · intro v m o2 l k hm
    exact h.resolveMatch v m o2 l k hm
  · intro v m o2 l k hm
    exact h.resolveFlags v m o2 l k hm
  · intro m
    exact h.oracleRes m
  · intro m hm
    exact h.resMem m hm
  · intro v hv j m hj hjm
    dsimp only at hj ⊢
    by_cases hvw : v = w
    · subst hvw
      rw [upd_same] at hj
      have hb : scanBound pages { s.workers v with phase := WPhase.ended }
          = pages.length := rfl
      rw [hb] at hj
      exact h.scanned v hv j m
        (by rw [scanBound, hph]; exact lt_of_lt_of_le hj hlen) hjm
    · rw [upd_of_ne _ _ hvw] at hj
      exact h.scanned v hv j m hj hjm
  · exact h.asmHeaders
  · exact h.asmGroups
  · exact h.asmLoopEnded
  · exact h.subAbortEv
  · exact h.debugAbort
  · exact h.abortEvErr
  · exact h.abortEvFail
  · intro hex
    dsimp only at hex
    exfalso
    obtain ⟨-, hall⟩ := h.exitedInv hex
    have := hall w hw
    rw [hph] at this
    simp [inactive] at this

lemma inv_step_crashnote (pages : List Nat) (oracle : Nat → Outcome) (nW : Nat)
    (s : Sys) (w : Nat) (h : Inv pages oracle nW s)
    (hw : w < nW) (hph : (s.workers w).phase = .crashNote) :
    Inv pages oracle nW
      { s with
        workers := upd s.workers w { s.workers w with phase := .crashed }
        events := s.events ++ [.lateWake w .one] } := by
  refine
    { procTaken := ?_, takenProc := ?_, procUnique := ?_, procMem := ?_,
      claimsCount := ?_, resolvesCount := ?_, procClaimed := ?_, resolveMatch := ?_,
      resolveFlags := ?_, oracleRes := ?_, resMem := ?_, scanned := ?_,
      asmHeaders := ?_, asmGroups := ?_, asmLoopEnded := ?_, subAbortEv := ?_,
      debugAbort := ?_, abortEvErr := ?_, abortEvFail := ?_, exitedInv := ?_ }
  · intro v m hv hproc
    dsimp only at hproc ⊢
    by_cases hvw : v = w
    · subst hvw
      rw [upd_same] at hproc
      exact absurd hproc (by simp)
    · rw [upd_of_ne _ _ hvw] at hproc
      exact h.procTaken v m hv hproc
  · intro m hm
    dsimp only at hm ⊢
    obtain ⟨v, hv, hproc⟩ := h.takenProc m hm
    have hvw : v ≠ w := by
      intro e
      subst e
      rw [hph] at hproc
      exact absurd hproc (by simp)
    exact ⟨v, hv, by rw [upd_of_ne _ _ hvw]; exact hproc⟩
  · intro v1 v2 m hv1 hv2 h1 h2
    dsimp only at h1 h2
    by_cases e1 : v1 = w
    · subst e1
      rw [upd_same] at h1
      exact absurd h1 (by simp)
    · by_cases e2 : v2 = w
      · subst e2
        rw [upd_same] at h2
        exact absurd h2 (by simp)
      · rw [upd_of_ne _ _ e1] at h1
        rw [upd_of_ne _ _ e2] at h2
        exact h.procUnique v1 v2 m hv1 hv2 h1 h2
  · intro v m hv hproc
    dsimp only at hproc
    by_cases hvw : v = w
    · subst hvw
      rw [upd_same] at hproc
      exact absurd hproc (by simp)
    · rw [upd_of_ne _ _ hvw] at hproc
      exact h.procMem v m hv hproc
  · intro m
    dsimp only
    rw [claimsOn_append, claimsOn_lateWake_single, h.claimsCount m]
    simp
  · intro m
    dsimp only
    rw [resolvesOn_append, resolvesOn_lateWake_single, h.resolvesCount m]
    simp
  · intro v m hv hproc
    dsimp only at hproc ⊢
    by_cases hvw : v = w
    · subst hvw
      rw [upd_same] at hproc
      exact absurd hproc (by simp)
    · rw [upd_of_ne _ _ hvw] at hproc
      exact List.mem_append_left _ (h.procClaimed v m hv hproc)
  · intro v m o2 l k hm
    dsimp only at hm ⊢
    rcases List.mem_append.mp hm with hm | hm
    · exact List.mem_append_left _ (h.resolveMatch v m o2 l k hm)
    · simp at hm
  · intro v m o2 l k hm
    dsimp only at hm
    rcases List.mem_append.mp hm with hm | hm
    · exact h.resolveFlags v m o2 l k hm
    · simp at hm
  · intro m
    exact h.oracleRes m
  · intro m hm
    exact h.resMem m hm
  · intro v hv j m hj hjm
    dsimp only at hj ⊢
    by_cases hvw : v = w
    · subst hvw
      rw [upd_same] at hj
      exact absurd hj (Nat.not_lt_zero j)
    · rw [upd_of_ne _ _ hvw] at hj
      exact h.scanned v hv j m hj hjm
  · exact h.asmHeaders
  · exact h.asmGroups
  · exact h.asmLoopEnded
  · intro hsub
    exact List.mem_append_left _ (h.subAbortEv hsub)
  · intro hd
    exact List.mem_append_left _ (h.debugAbort hd)
  · intro hab
    dsimp only at hab
    rcases List.mem_append.mp hab with hab | hab
    · exact h.abortEvErr hab
    · simp at hab
  · intro hab
    dsimp only at hab ⊢
    rcases List.mem_append.mp hab with hab | hab
    · exact h.abortEvFail hab
    · simp at hab
  · intro hex
    dsimp only at hex
    exfalso
    obtain ⟨-, hall⟩ := h.exitedInv hex
    have := hall w hw
    rw [hph] at this
    simp [inactive] at this

lemma inv_page_thread_step (pages : List Nat) (oracle : Nat → Outcome) (nW : Nat)
    (s : Sys) (w : Nat) (h : Inv pages oracle nW s) :
    Inv pages oracle nW (page_thread_step pages oracle nW s w) := by
  by_cases hw : w < nW
  · cases hph : (s.workers w).phase with
    | scanning =>
      cases hpg : pages[(s.workers w).idx]? with
      | none =>
        have hstep : page_thread_step pages oracle nW s w
            = { s with workers := upd s.workers w { s.workers w with phase := .ended } } := by
          simp [page_thread_step, hw, hph, hpg]
        rw [hstep]
        exact inv_step_ended pages oracle nW s w h hw hph hpg
      | some n =>
        by_cases hres : s.results n = .unclaimed
        · have hstep : page_thread_step pages oracle nW s w
              = { s with
                  results := upd s.results n .taken
                  workers := upd s.workers w { s.workers w with phase := .processing n }
                  events := s.events ++ [.claimPage w n] } := by
            simp [page_thread_step, hw, hph, hpg, hres]
          rw [hstep]
          exact inv_step_claim pages oracle nW s w n h hw hph hpg hres
        · have hstep : page_thread_step pages oracle nW s w
              = { s with
                  workers := upd s.workers w
                    { s.workers w with idx := (s.workers w).idx + 1 } } := by
            simp [page_thread_step, hw, hph, hpg, hres]
          rw [hstep]
          exact inv_step_skip pages oracle nW s w n h hw hph hpg hres
    | processing n =>
      cases ho : oracle n with
      | ok =>
        have hstep : page_thread_step pages oracle nW s w
            = { s with
                results := upd s.results n .okRes
                workers := upd s.workers w { idx := (s.workers w).idx + 1, phase := .scanning }
                events := s.events ++ [.resolvePage w n .ok true (some .one)] } := by
          simp [page_thread_step, hw, hph, ho]
        rw [hstep]
        exact inv_step_resolve_good pages oracle nW s w n .ok .okRes h hw hph ho
          (Or.inl ⟨rfl, rfl⟩)
      | noImage =>
        have hstep : page_thread_step pages oracle nW s w
            = { s with
                results := upd s.results n .noImageRes
                workers := upd s.workers w { idx := (s.workers w).idx + 1, phase := .scanning }
                events := s.events ++ [.resolvePage w n .noImage true (some .one)] } := by
          simp [page_thread_step, hw, hph, ho]
        rw [hstep]
        exact inv_step_resolve_good pages oracle nW s w n .noImage .noImageRes h hw hph ho
          (Or.inr ⟨rfl, rfl⟩)
      | err =>
        have hstep : page_thread_step pages oracle nW s w
            = { s with
                results := upd s.results n .failRes
                workers := upd s.workers w { s.workers w with phase := .crashNote }
                events := s.events ++ [.resolvePage w n .err false none] } := by
          simp [page_thread_step, hw, hph, ho]
        rw [hstep]
        exact inv_step_resolve_err pages oracle nW s w n h hw hph ho
    | crashNote =>
      have hstep : page_thread_step pages oracle nW s w
          = { s with
              workers := upd s.workers w { s.workers w with phase := .crashed }
              events := s.events ++ [.lateWake w .one] } := by
        simp [page_thread_step, hw, hph]
      rw [hstep]
      exact inv_step_crashnote pages oracle nW s w h hw hph
    | crashed =>
      have hstep : page_thread_step pages oracle nW s w = s := by
        simp [page_thread_step, hw, hph]
      rw [hstep]
      exact h
    | ended =>
      have hstep : page_thread_step pages oracle nW s w = s := by
        simp [page_thread_step, hw, hph]
      rw [hstep]
      exact h
  · have hstep : page_thread_step pages oracle nW s w = s := by
      simp [page_thread_step, hw]
    rw [hstep]
    exact h

lemma inv_asm_header (pages : List Nat) (oracle : Nat → Outcome) (nW : Nat)
    (s : Sys) (n : Nat) (h : Inv pages oracle nW s)
    (hsub : s.asm.sub = .toHeader) (hpg : pages[s.asm.idx]? = some n) :
    Inv pages oracle nW
      { s with
        asm := { s.asm with sub := .toWait, headers := s.asm.headers ++ [n] }
        events := s.events ++ [.headerFor n] } := by
  have hnoab : Ev.abortRun ∉ s.events := by
    intro hab
    rcases h.abortEvFail hab with e | e <;> rw [hsub] at e <;> exact absurd e (by decide)
  refine
    { procTaken := h.procTaken, takenProc := h.takenProc, procUnique := h.procUnique,
      procMem := h.procMem, claimsCount := ?_, resolvesCount := ?_,
      procClaimed := ?_, resolveMatch := ?_, resolveFlags := ?_,
      oracleRes := h.oracleRes, resMem := h.resMem, scanned := h.scanned,
      asmHeaders := ?_, asmGroups := h.asmGroups, asmLoopEnded := ?_,
      subAbortEv := ?_, debugAbort := ?_, abortEvErr := ?_, abortEvFail := ?_,
      exitedInv := ?_ }
  · intro m
    dsimp only
    rw [claimsOn_append, claimsOn_headerFor_single, h.claimsCount m]
    simp
  · intro m
    dsimp only
    rw [resolvesOn_append, resolvesOn_headerFor_single, h.resolvesCount m]
    simp
  · intro v m hv hproc
    exact List.mem_append_left _ (h.procClaimed v m hv hproc)
  · intro v m o2 l k hm
    dsimp only at hm ⊢
    rcases List.mem_append.mp hm with hm | hm
    · exact List.mem_append_left _ (h.resolveMatch v m o2 l k hm)
    · simp at hm
  · intro v m o2 l k hm
    dsimp only at hm
    rcases List.mem_append.mp hm with hm | hm
    · exact h.resolveFlags v m o2 l k hm
    · simp at hm
  · dsimp only
    have hb : headerBound s.asm = s.asm.idx := by
      rw [headerBound, hsub]
    have hb2 : headerBound { s.asm with sub := ASub.toWait, headers := s.asm.headers ++ [n] }
        = s.asm.idx + 1 := rfl
    rw [hb2, h.asmHeaders, hb, List.take_succ, hpg]
    rfl
  · intro e
    dsimp only at e
    exact absurd e (by decide)
  · intro hsub'
    dsimp only at hsub'
    rcases hsub' with e | e <;> exact absurd e (by decide)
  · intro hd
    exact List.mem_append_left _ (h.debugAbort hd)
  · intro hab
    dsimp only at hab
    rcases List.mem_append.mp hab with hab | hab
    · exact h.abortEvErr hab
    · simp at hab
  · intro hab
    dsimp only at hab
    exfalso
    rcases List.mem_append.mp hab with hab | hab
    · exact hnoab hab
    · simp at hab
  · intro hex
    dsimp only at hex
    exact absurd hex (by decide)

lemma inv_asm_loopEnded (pages : List Nat) (oracle : Nat → Outcome) (nW : Nat)
    (s : Sys) (h : Inv pages oracle nW s)
    (hsub : s.asm.sub = .toHeader) (hpg : pages[s.asm.idx]? = none) :
    Inv pages oracle nW { s with asm := { s.asm with sub := .loopEnded } } := by
  have hnoab : Ev.abortRun ∉ s.events := by
    intro hab
    rcases h.abortEvFail hab with e | e <;> rw [hsub] at e <;> exact absurd e (by decide)
  refine
    { procTaken := h.procTaken, takenProc := h.takenProc, procUnique := h.procUnique,
      procMem := h.procMem, claimsCount := h.claimsCount,
      resolvesCount := h.resolvesCount, procClaimed := h.procClaimed,
      resolveMatch := h.resolveMatch, resolveFlags := h.resolveFlags,
      oracleRes := h.oracleRes, resMem := h.resMem, scanned := h.scanned,
      asmHeaders := ?_, asmGroups := h.asmGroups, asmLoopEnded := ?_,
      subAbortEv := ?_, debugAbort := h.debugAbort, abortEvErr := h.abortEvErr,
      abortEvFail := ?_, exitedInv := ?_ }
  · dsimp only
    have hb : headerBound s.asm = s.asm.idx := by
      rw [headerBound, hsub]
    have hb2 : headerBound { s.asm with sub := ASub.loopEnded } = s.asm.idx := rfl
    rw [hb2, h.asmHeaders, hb]
  · intro _
    exact List.getElem?_eq_none_iff.mp hpg
  · intro hsub'
    dsimp only at hsub'
    rcases hsub' with e | e <;> exact absurd e (by decide)
  · intro hab
    exact absurd hab hnoab
  · intro hex
    dsimp only at hex
    exact absurd hex (by decide)

lemma inv_asm_observe (pages : List Nat) (oracle : Nat → Outcome) (nW : Nat)
    (s : Sys) (n : Nat) (eb : Bool) (h : Inv pages oracle nW s)
    (hsub : s.asm.sub = .toWait) (hpg : pages[s.asm.idx]? = some n)
    (hres : (s.results n = .okRes ∧ eb = false) ∨ (s.results n = .noImageRes ∧ eb = true)) :
    Inv pages oracle nW
      { s with
        asm := { s.asm with
                  sub := .toHeader
                  idx := s.asm.idx + 1
                  groups := s.asm.groups ++ [(n, eb)] }
        events := s.events ++ [.groupFor n eb] } := by
  have hnoab : Ev.abortRun ∉ s.events := by
    intro hab
    rcases h.abortEvFail hab with e | e <;> rw [hsub] at e <;> exact absurd e (by decide)
  have horacle : eb = emptyFlag (oracle n) := by
    rcases hres with ⟨he, hb⟩ | ⟨he, hb⟩
    · rw [hb, (h.oracleRes n).1 he]
      rfl
    · rw [hb, (h.oracleRes n).2.1 he]
      rfl
  refine
    { procTaken := h.procTaken, takenProc := h.takenProc, procUnique := h.procUnique,
      procMem := h.procMem, claimsCount := ?_, resolvesCount := ?_,
      procClaimed := ?_, resolveMatch := ?_, resolveFlags := ?_,
      oracleRes := h.oracleRes, resMem := h.resMem, scanned := h.scanned,
      asmHeaders := ?_, asmGroups := ?_, asmLoopEnded := ?_,
      subAbortEv := ?_, debugAbort := ?_, abortEvErr := ?_, abortEvFail := ?_,
      exitedInv := ?_ }
  · intro m
    dsimp only
    rw [claimsOn_append, claimsOn_groupFor_single, h.claimsCount m]
    simp
  · intro m
    dsimp only
    rw [resolvesOn_append, resolvesOn_groupFor_single, h.resolvesCount m]
    simp
  · intro v m hv hproc
    exact List.mem_append_left _ (h.procClaimed v m hv hproc)
  · intro v m o2 l k hm
    dsimp only at hm ⊢
    rcases List.mem_append.mp hm with hm | hm
    · exact List.mem_append_left _ (h.resolveMatch v m o2 l k hm)
    · simp at hm
  · intro v m o2 l k hm
    dsimp only at hm
    rcases List.mem_append.mp hm with hm | hm
    · exact h.resolveFlags v m o2 l k hm
    · simp at hm
  · dsimp only
    have hb : headerBound s.asm = s.asm.idx + 1 := by
      rw [headerBound, hsub]
    rw [show headerBound { s.asm with
          sub := ASub.toHeader
          idx := s.asm.idx + 1
          groups := s.asm.groups ++ [(n, eb)] } = s.asm.idx + 1 from rfl,
      h.asmHeaders, hb]
  · dsimp only
    rw [h.asmGroups, List.take_succ, hpg, horacle]
    simp
  · intro e
    dsimp only at e
    exact absurd e (by decide)
  · intro hsub'
    dsimp only at hsub'
    rcases hsub' with e | e <;> exact absurd e (by decide)
  · intro hd
    exact List.mem_append_left _ (h.debugAbort hd)
  · intro hab
    dsimp only at hab
    rcases List.mem_append.mp hab with hab | hab
    · exact h.abortEvErr hab
    · simp at hab
  · intro hab
    dsimp only at hab
    exfalso
    rcases List.mem_append.mp hab with hab | hab
    · exact hnoab hab
    · simp at hab
  · intro hex
    dsimp only at hex
    exact absurd hex (by decide)

lemma inv_asm_fail (pages : List Nat) (oracle : Nat → Outcome) (nW : Nat)
    (s : Sys) (n : Nat) (h : Inv pages oracle nW s)
    (hsub : s.asm.sub = .toWait) (_hpg : pages[s.asm.idx]? = some n)
    (hres : s.results n = .failRes) :
    Inv pages oracle nW
      { s with
        asm := { s.asm with sub := .joining }
        events := s.events ++ [.abortRun] } := by
  have herr : oracle n = .err := (h.oracleRes n).2.2 hres
  have hnmem : n ∈ pages := h.resMem n (by rw [hres]; decide)
  refine
    { procTaken := h.procTaken, takenProc := h.takenProc, procUnique := h.procUnique,
      procMem := h.procMem, claimsCount := ?_, resolvesCount := ?_,
      procClaimed := ?_, resolveMatch := ?_, resolveFlags := ?_,
      oracleRes := h.oracleRes, resMem := h.resMem, scanned := h.scanned,
      asmHeaders := ?_, asmGroups := h.asmGroups, asmLoopEnded := ?_,
      subAbortEv := ?_, debugAbort := ?_, abortEvErr := ?_, abortEvFail := ?_,
      exitedInv := ?_ }
  · intro m
    dsimp only
    rw [claimsOn_append, claimsOn_abortRun_single, h.claimsCount m]
    simp
  · intro m
    dsimp only
    rw [resolvesOn_append, resolvesOn_abortRun_single, h.resolvesCount m]
    simp
  · intro v m hv hproc
    exact List.mem_append_left _ (h.procClaimed v m hv hproc)
  · intro v m o2 l k hm
    dsimp only at hm ⊢
    rcases List.mem_append.mp hm with hm | hm
    · exact List.mem_append_left _ (h.resolveMatch v m o2 l k hm)
    · simp at hm
  · intro v m o2 l k hm
    dsimp only at hm
    rcases List.mem_append.mp hm with hm | hm
    · exact h.resolveFlags v m o2 l k hm
    · simp at hm
  · dsimp only
    have hb : headerBound s.asm = s.asm.idx + 1 := by
      rw [headerBound, hsub]
    rw [show headerBound { s.asm with sub := ASub.joining } = s.asm.idx + 1 from rfl,
      h.asmHeaders, hb]
  · intro e
    dsimp only at e
    exact absurd e (by decide)
  · intro _
    exact List.mem_append_right _ (by simp)
  · intro hd
    exact List.mem_append_left _ (h.debugAbort hd)
  · intro hab
    dsimp only at hab
    rcases List.mem_append.mp hab with hab | hab
    · exact h.abortEvErr hab
    · exact ⟨n, hnmem, herr⟩
  · intro _
    exact Or.inl rfl
  · intro hex
    dsimp only at hex
    exact absurd hex (by decide)

lemma inv_asm_exit (pages : List Nat) (oracle : Nat → Outcome) (nW : Nat)
    (s : Sys) (h : Inv pages oracle nW s)
    (hsub : s.asm.sub = .joining)
    (hall : (List.range nW).all (fun w => inactive (s.workers w).phase) = true) :
    Inv pages oracle nW
      { s with asm := { s.asm with sub := .exited }, debug := true } := by
  have habort : Ev.abortRun ∈ s.events := h.subAbortEv (Or.inl hsub)
  refine
    { procTaken := h.procTaken, takenProc := h.takenProc, procUnique := h.procUnique,
      procMem := h.procMem, claimsCount := h.claimsCount,
      resolvesCount := h.resolvesCount, procClaimed := h.procClaimed,
      resolveMatch := h.resolveMatch, resolveFlags := h.resolveFlags,
      oracleRes := h.oracleRes, resMem := h.resMem, scanned := h.scanned,
      asmHeaders := ?_, asmGroups := h.asmGroups, asmLoopEnded := ?_,
      subAbortEv := ?_, debugAbort := ?_, abortEvErr := h.abortEvErr,
      abortEvFail := ?_, exitedInv := ?_ }
  · dsimp only
    have hb : headerBound s.asm = s.asm.idx + 1 := by
      rw [headerBound, hsub]
    rw [show headerBound { s.asm with sub := ASub.exited } = s.asm.idx + 1 from rfl,
      h.asmHeaders, hb]
  · intro e
    dsimp only at e
    exact absurd e (by decide)
  · intro _
    exact habort
  · intro _
    exact habort
  · intro _
    exact Or.inr rfl
  · intro _
    refine ⟨rfl, fun v hv => ?_⟩
    exact List.all_eq_true.mp hall v (List.mem_range.mpr hv)

lemma inv_process_step (pages : List Nat) (oracle : Nat → Outcome) (nW : Nat)
    (s : Sys) (h : Inv pages oracle nW s) :
    Inv pages oracle nW (process_step pages nW s) := by
  cases hsub : s.asm.sub with
  | toHeader =>
    cases hpg : pages[s.asm.idx]? with
    | none =>
      have hstep : process_step pages nW s
          = { s with asm := { s.asm with sub := .loopEnded } } := by
        simp [process_step, hsub, hpg]
      rw [hstep]
      exact inv_asm_loopEnded pages oracle nW s h hsub hpg
    | some n =>
      have hstep : process_step pages nW s
          = { s with
              asm := { s.asm with sub := .toWait, headers := s.asm.headers ++ [n] }
              events := s.events ++ [.headerFor n] } := by
        simp [process_step, hsub, hpg]
      rw [hstep]
      exact inv_asm_header pages oracle nW s n h hsub hpg
  | toWait =>
    cases hpg : pages[s.asm.idx]? with
    | none =>
      have hstep : process_step pages nW s = s := by
        simp [process_step, hsub, hpg]
      rw [hstep]
      exact h
    | some n =>
      cases hres : s.results n with
      | unclaimed =>
        have hstep : process_step pages nW s = s := by
          simp [process_step, hsub, hpg, hres]
        rw [hstep]
        exact h
      | taken =>
        have hstep : process_step pages nW s = s := by
          simp [process_step, hsub, hpg, hres]
        rw [hstep]
        exact h
      | okRes =>
        have hstep : process_step pages nW s
            = { s with
                asm := { s.asm with
                          sub := .toHeader
                          idx := s.asm.idx + 1
                          groups := s.asm.groups ++ [(n, false)] }
                events := s.events ++ [.groupFor n false] } := by
          simp [process_step, hsub, hpg, hres]
        rw [hstep]
        exact inv_asm_observe pages oracle nW s n false h hsub hpg (Or.inl ⟨hres, rfl⟩)
      | noImageRes =>
        have hstep : process_step pages nW s
            = { s with
                asm := { s.asm with
                          sub := .toHeader
                          idx := s.asm.idx + 1
                          groups := s.asm.groups ++ [(n, true)] }
                events := s.events ++ [.groupFor n true] } := by
          simp [process_step, hsub, hpg, hres]
        rw [hstep]
        exact inv_asm_observe pages oracle nW s n true h hsub hpg (Or.inr ⟨hres, rfl⟩)
      | failRes =>
        have hstep : process_step pages nW s
            = { s with
                asm := { s.asm with sub := .joining }
                events := s.events ++ [.abortRun] } := by
          simp [process_step, hsub, hpg, hres]
        rw [hstep]
        exact inv_asm_fail pages oracle nW s n h hsub hpg hres
  | joining =>
    by_cases hall : (List.range nW).all (fun w => inactive (s.workers w).phase) = true
    · have hstep : process_step pages nW s
          = { s with asm := { s.asm with sub := .exited }, debug := true } := by
        simp [process_step, hsub, hall]
      rw [hstep]
      exact inv_asm_exit pages oracle nW s h hsub hall
    · have hstep : process_step pages nW s = s := by
        simp [process_step, hsub, hall]
      rw [hstep]
      exact h
  | exited =>
    have hstep : process_step pages nW s = s := by
      simp [process_step, hsub]
    rw [hstep]
    exact h
  | loopEnded =>
    have hstep : process_step pages nW s = s := by
      simp [process_step, hsub]
    rw [hstep]
    exact h

lemma inv_sched_step (pages : List Nat) (oracle : Nat → Outcome) (nW : Nat)
    (s : Sys) (a : Option Nat) (h : Inv pages oracle nW s) :
    Inv pages oracle nW (sched_step pages oracle nW s a) := by
  cases a with
  | some w => exact inv_page_thread_step pages oracle nW s w h
  | none => exact inv_process_step pages oracle nW s h

lemma inv_run_sched (pages : List Nat) (oracle : Nat → Outcome) (nW : Nat)
    (sched : List (Option Nat)) :
    Inv pages oracle nW (run_sched pages oracle nW sched) := by
  rw [run_sched]
  induction sched using List.reverseRecOn with
  | nil => exact inv_init pages oracle nW
  | append_singleton l a ih =>
    rw [List.foldl_append]
    exact inv_sched_step pages oracle nW _ a ih

/-- C9: the page-number parser returns `[17]` for `'17'`, the inclusive range
`[37..42]` for `'37-42'`, their concatenation for `'17,37-42'`, the empty list
(without an error) for the reversed range `'42-37'`, `[17]` for `'17-17'`, and
for absent input it returns Python `None`, upon which `Context._process`
processes every document page. -/
theorem c9_parse_page_numbers_examples :
    parse_page_numbers none = some none
    ∧ parse_page_numbers (some ("17".toList)) = some (some [17])
    ∧ parse_page_numbers (some ("37-42".toList)) = some (some [37, 38, 39, 40, 41, 42])
    ∧ parse_page_numbers (some ("17,37-42".toList)) = some (some [17, 37, 38, 39, 40, 41, 42])
    ∧ parse_page_numbers (some ("42-37".toList)) = some (some [])
    ∧ parse_page_numbers (some ("17-17".toList)) = some (some [17])
    ∧ ∀ docPages : List Nat, select_document_pages docPages none = some docPages := by
  refine ⟨rfl, by decide, by decide, by decide, by decide, by decide, fun docPages => rfl⟩

/-- C10: the parser neither sorts nor deduplicates: for every input string the
result is the in-order concatenation of each comma-separated item's expansion;
in particular `'42,17'` yields `[42, 17]` and the overlapping ranges
`'1-3,2-4'` yield `[1, 2, 3, 2, 3, 4]` with duplicated page numbers. -/
theorem c10_parse_page_numbers_concat_in_input_order :
    (∀ s : List Char,
      parse_page_numbers (some s)
        = (parseAll (splitAtCommas s)).map (fun ls => some ls.flatten))
    ∧ parse_page_numbers (some ("42,17".toList)) = some (some [42, 17])
    ∧ parse_page_numbers (some ("1-3,2-4".toList)) = some (some [1, 2, 3, 2, 3, 4]) := by
  refine ⟨fun s => ?_, by decide, by decide⟩
  show ((splitAtCommas s).foldl
      (fun acc item => acc.bind (fun r => (parseItem item).map (fun l => r ++ l)))
      (some [])).map some = _
  rw [parseAll_foldl]
  simp only [Option.map_map]
  rfl

/-- C7: the select-directive escaping doubles every backslash and prefixes
every single quote with a backslash (backslashes first), characterwise; it
round-trips through the grammar's unescaping and is therefore injective. The
concrete conjunct shows an identifier containing both special characters. -/
theorem c7_escape_file_id_roundtrip :
    (∀ s : List Char, escape_file_id s = s.flatMap escapeChar)
    ∧ (∀ s : List Char, unescape_file_id (escape_file_id s) = s)
    ∧ (∀ s t : List Char, escape_file_id s = escape_file_id t → s = t)
    ∧ escape_file_id ['a', '\\', 'b', '\'', 'c']
        = ['a', '\\', '\\', 'b', '\\', '\'', 'c'] := by
  refine ⟨escape_file_id_eq_flatMap, unescape_escape, fun s t h => ?_, by decide⟩
  calc s = unescape_file_id (escape_file_id s) := (unescape_escape s).symm
    _ = unescape_file_id (escape_file_id t) := by rw [h]
    _ = t := unescape_escape t

/-- Witness for C7: applying the injectivity conjunct at a concrete input. -/
theorem c7_escape_file_id_roundtrip_witness :
    (['q', '\\'] : List Char) = ['q', '\\'] :=
  c7_escape_file_id_roundtrip.2.2.1 ['q', '\\'] ['q', '\\'] rfl

/-- Counterexample to C8 as stated: the program computes the resolution field
as `int(dpi * 39.37 + 0.5)` in IEEE doubles, and since `39.37` is not exactly
representable this does not always equal the claim's `round(dpi * 39.37)`. At
the legal DjVu resolution `dpi = 50` the program emits 1968 pixels per meter
where the claim's formula gives 1969 (likewise 29527 versus 29528 at
`dpi = 750`), so the emitted resolution bytes of a 1×1 1-bit page at dpi 50
differ from the claimed byte-exact value. -/
theorem c8_counterexample_resolution_field_not_exact_round :
    dpm_of_dpi_float 50 = 1968
    ∧ spec_resolution_dpm 50 = 1969
    ∧ dpm_of_dpi_float 750 = 29527
    ∧ spec_resolution_dpm 750 = 29528
    ∧ ((bmp_write_image 1 1 1 (dpm_of_dpi_float 50) [0, 0, 0, 0]).drop 38).take 4
        = le32 1968
    ∧ ((bmp_write_image 1 1 1 (dpm_of_dpi_float 50) [0, 0, 0, 0]).drop 38).take 4
        ≠ le32 (spec_resolution_dpm 50) := by
  decide

/-- Arithmetic certificate that `float39_37_num / 2^47` is the IEEE binary64
double nearest to `39.37 = 3937/100`: the mantissa is in the normal 53-bit
range and its distance to `3937/100 · 2^47` is strictly below half a unit, so
it is the unique nearest double and no tie-breaking is involved. -/
lemma float39_37_spec :
    2 ^ 52 ≤ float39_37_num
    ∧ float39_37_num < 2 ^ 53
    ∧ 100 * float39_37_num ≤ 3937 * 2 ^ 47
    ∧ 2 * (3937 * 2 ^ 47 - 100 * float39_37_num) < 100 := by
  decide

set_option maxHeartbeats 2000000 in
/-- C8 amended: BMP output layout. For 1-bit images the bytes start with magic
`BM`, a little-endian file size of `data.length + 62` (54 header bytes plus a
2-entry palette), pixel offset 62, DIB size 40, the width and height, 1 color
plane, bit depth 1, compression 0, pixel-data size, both resolutions equal to
the program's IEEE-double evaluation of `int(dpi * 39.37 + 0.5)` — which
matches the exact `round(dpi * 39.37)` for most but not all resolutions (see
the dpi = 50 counterexample) — palette counts 2, then a white-then-black
palette, then the pixel data. For 24-bit images the header size is 54, the bit
depth 24, palette counts 0, no palette is emitted, and — under the
`row_alignment=4` render contract — the pixel-data size field equals
`height * round_up_to_4 (width * 3)`. -/
theorem c8_bmp_write_image_layout (width height dpi : Nat) (data : List Nat) :
    ((bmp_write_image 1 width height (dpm_of_dpi_float dpi) data).take 2 = [66, 77]
    ∧ ((bmp_write_image 1 width height (dpm_of_dpi_float dpi) data).drop 2).take 4
        = le32 (data.length + 62)
    ∧ ((bmp_write_image 1 width height (dpm_of_dpi_float dpi) data).drop 10).take 4 = le32 62
    ∧ ((bmp_write_image 1 width height (dpm_of_dpi_float dpi) data).drop 14).take 4 = le32 40
    ∧ ((bmp_write_image 1 width height (dpm_of_dpi_float dpi) data).drop 18).take 4 = le32 width
    ∧ ((bmp_write_image 1 width height (dpm_of_dpi_float dpi) data).drop 22).take 4 = le32 height
    ∧ ((bmp_write_image 1 width height (dpm_of_dpi_float dpi) data).drop 26).take 2 = le16 1
    ∧ ((bmp_write_image 1 width height (dpm_of_dpi_float dpi) data).drop 28).take 2 = le16 1
    ∧ ((bmp_write_image 1 width height (dpm_of_dpi_float dpi) data).drop 30).take 4 = le32 0
    ∧ ((bmp_write_image 1 width height (dpm_of_dpi_float dpi) data).drop 34).take 4
        = le32 data.length
    ∧ ((bmp_write_image 1 width height (dpm_of_dpi_float dpi) data).drop 38).take 4
        = le32 (dpm_of_dpi_float dpi)
    ∧ ((bmp_write_image 1 width height (dpm_of_dpi_float dpi) data).drop 42).take 4
        = le32 (dpm_of_dpi_float dpi)
    ∧ ((bmp_write_image 1 width height (dpm_of_dpi_float dpi) data).drop 46).take 4 = le32 2
    ∧ ((bmp_write_image 1 width height (dpm_of_dpi_float dpi) data).drop 50).take 4 = le32 2
    ∧ ((bmp_write_image 1 width height (dpm_of_dpi_float dpi) data).drop 54).take 8
        = [255, 255, 255, 0, 0, 0, 0, 0]
    ∧ (bmp_write_image 1 width height (dpm_of_dpi_float dpi) data).drop 62 = data)
    ∧ ((bmp_write_image 24 width height (dpm_of_dpi_float dpi) data).take 2 = [66, 77]
    ∧ ((bmp_write_image 24 width height (dpm_of_dpi_float dpi) data).drop 2).take 4
        = le32 (data.length + 54)
    ∧ ((bmp_write_image 24 width height (dpm_of_dpi_float dpi) data).drop 10).take 4 = le32 54
    ∧ ((bmp_write_image 24 width height (dpm_of_dpi_float dpi) data).drop 14).take 4 = le32 40
    ∧ ((bmp_write_image 24 width height (dpm_of_dpi_float dpi) data).drop 18).take 4 = le32 width
    ∧ ((bmp_write_image 24 width height (dpm_of_dpi_float dpi) data).drop 22).take 4 = le32 height
    ∧ ((bmp_write_image 24 width height (dpm_of_dpi_float dpi) data).drop 26).take 2 = le16 1
    ∧ ((bmp_write_image 24 width height (dpm_of_dpi_float dpi) data).drop 28).take 2 = le16 24
    ∧ ((bmp_write_image 24 width height (dpm_of_dpi_float dpi) data).drop 30).take 4 = le32 0
    ∧ ((bmp_write_image 24 width height (dpm_of_dpi_float dpi) data).drop 38).take 4
        = le32 (dpm_of_dpi_float dpi)
    ∧ ((bmp_write_image 24 width height (dpm_of_dpi_float dpi) data).drop 42).take 4
        = le32 (dpm_of_dpi_float dpi)
    ∧ ((bmp_write_image 24 width height (dpm_of_dpi_float dpi) data).drop 46).take 4 = le32 0
    ∧ ((bmp_write_image 24 width height (dpm_of_dpi_float dpi) data).drop 50).take 4 = le32 0
    ∧ (bmp_write_image 24 width height (dpm_of_dpi_float dpi) data).drop 54 = data)
    ∧ (data.length = height * round_up_to_4 (width * 3) →
        ((bmp_write_image 24 width height (dpm_of_dpi_float dpi) data).drop 34).take 4
          = le32 (height * round_up_to_4 (width * 3))) := by
  refine ⟨⟨rfl, rfl, rfl, rfl, rfl, rfl, rfl, rfl, rfl, rfl, rfl, rfl, rfl, rfl, rfl, rfl⟩,
    ⟨rfl, rfl, rfl, rfl, rfl, rfl, rfl, rfl, rfl, rfl, rfl, rfl, rfl, rfl⟩, fun h => ?_⟩
  rw [← h]
  rfl

/-- Witness for C8: a synthetic 2×2 24-bit image whose 16 data bytes satisfy
the `row_alignment=4` length contract `2 * round_up_to_4 (2 * 3) = 16`. -/
theorem c8_bmp_write_image_layout_witness :
    ((bmp_write_image 24 2 2 (dpm_of_dpi_float 300) (List.replicate 16 0)).drop 34).take 4
      = le32 (2 * round_up_to_4 (2 * 3)) :=
  (c8_bmp_write_image_layout 2 2 300 (List.replicate 16 0)).2.2 (by decide)

/-! ## Theorems for the scheduler claims -/

/-- C1: in every interleaving, each page is claimed at most once (the locked
test-and-set of lines 387-393 flips `None` to `True` at most once per page);
and in every completed run — at least one worker, every worker having fallen
off the end of its page loop — each requested page is claimed exactly once and
all N requested (distinct) pages hold terminal Result Table entries. -/
theorem c1_each_page_claimed_once_n_terminal (pages : List Nat)
    (oracle : Nat → Outcome) (nW : Nat) (sched : List (Option Nat))
    (hW : 0 < nW) (_hnd : pages.Nodup)
    (hdone : ∀ w, w < nW → ((run_sched pages oracle nW sched).workers w).phase = .ended) :
    (∀ p, claimsOn p (run_sched pages oracle nW sched).events ≤ 1)
    ∧ (∀ p ∈ pages, claimsOn p (run_sched pages oracle nW sched).events = 1)
    ∧ (pages.filter
        (fun p => ((run_sched pages oracle nW sched).results p).isTerminal)).length
      = pages.length := by
  have h := inv_run_sched pages oracle nW sched
  have hterm : ∀ p ∈ pages,
      ((run_sched pages oracle nW sched).results p).isTerminal = true := by
    intro p hp
    obtain ⟨j, hj⟩ := List.mem_iff_getElem?.mp hp
    have hjlt : j < pages.length := (List.getElem?_eq_some_iff.mp hj).1
    have hnu : (run_sched pages oracle nW sched).results p ≠ .unclaimed := by
      apply h.scanned 0 hW j p _ hj
      rw [scanBound, hdone 0 hW]
      exact hjlt
    have hnt : (run_sched pages oracle nW sched).results p ≠ .taken := by
      intro ht
      obtain ⟨v, hv, hproc⟩ := h.takenProc p ht
      rw [hdone v hv] at hproc
      exact absurd hproc (by simp)
    cases hres : (run_sched pages oracle nW sched).results p
    · exact absurd hres hnu
    · exact absurd hres hnt
    · rfl
    · rfl
    · rfl
  have hne : ∀ p ∈ pages, (run_sched pages oracle nW sched).results p ≠ .unclaimed := by
    intro p hp he
    have := hterm p hp
    rw [he] at this
    exact absurd this (by decide)
  refine ⟨?_, ?_, ?_⟩
  · intro p
    rw [h.claimsCount p]
    split <;> simp
  · intro p hp
    rw [h.claimsCount p, if_neg (hne p hp)]
  · rw [List.filter_eq_self.mpr hterm]

/-- Witness for C1: two pages, one worker, a five-step schedule that claims
and resolves both pages and then terminates the worker. -/
theorem c1_each_page_claimed_once_n_terminal_witness :
    (∀ p, claimsOn p
      (run_sched [1, 2] (fun _ => Outcome.ok) 1
        [some 0, some 0, some 0, some 0, some 0]).events ≤ 1)
    ∧ (∀ p ∈ [1, 2], claimsOn p
        (run_sched [1, 2] (fun _ => Outcome.ok) 1
          [some 0, some 0, some 0, some 0, some 0]).events = 1)
    ∧ (([1, 2].filter
        (fun p => ((run_sched [1, 2] (fun _ => Outcome.ok) 1
          [some 0, some 0, some 0, some 0, some 0]).results p).isTerminal)).length
      = ([1, 2] : List Nat).length) :=
  c1_each_page_claimed_once_n_terminal [1, 2] (fun _ => Outcome.ok) 1
    [some 0, some 0, some 0, some 0, some 0] (by decide) (by decide)
    (fun w hw => by
      have hw0 : w = 0 := Nat.lt_one_iff.mp hw
      subst hw0
      decide)

/-- Counterexample to C3 as stated: with the caller-supplied request `[2, 1]`
(Python `-p 2,1`), a completed run emits the record groups in request order
`[2, 1]`, not in the ascending sort `[1, 2]` of the requested PageIds: the
loop at line 434 iterates `pages` in the given order. -/
theorem c3_counterexample_emission_not_sorted :
    (run_sched [2, 1] (fun _ => Outcome.ok) 1
        [some 0, some 0, some 0, some 0, some 0,
          none, none, none, none, none]).asm.sub = .loopEnded
    ∧ ((run_sched [2, 1] (fun _ => Outcome.ok) 1
        [some 0, some 0, some 0, some 0, some 0,
          none, none, none, none, none]).asm.groups.map Prod.fst = [2, 1])
    ∧ ((run_sched [2, 1] (fun _ => Outcome.ok) 1
        [some 0, some 0, some 0, some 0, some 0,
          none, none, none, none, none]).asm.groups.map Prod.fst ≠ [1, 2]) := by
  decide

/-- C3 amended: for every completion order (schedule) under which the
assembler finishes its loop, the emitted record groups are exactly the
requested PageId list, in request order — which equals the ascending sort
precisely when the request itself is ascending (as it is for the whole-document
default `list(document.pages)`). -/
theorem c3_amended_emission_in_request_order (pages : List Nat)
    (oracle : Nat → Outcome) (nW : Nat) (sched : List (Option Nat))
    (hend : (run_sched pages oracle nW sched).asm.sub = .loopEnded) :
    (run_sched pages oracle nW sched).asm.groups.map Prod.fst = pages := by
  have h := inv_run_sched pages oracle nW sched
  have hlen := h.asmLoopEnded hend
  have hfst : ∀ l : List Nat,
      (l.map (fun p => (p, emptyFlag (oracle p)))).map Prod.fst = l := by
    intro l
    induction l with
    | nil => rfl
    | cons a t ih => simp [ih]
  rw [h.asmGroups, List.take_of_length_le hlen, hfst]

/-- Witness for C3's amended claim at the counterexample's completed run. -/
theorem c3_amended_emission_in_request_order_witness :
    (run_sched [2, 1] (fun _ => Outcome.ok) 1
        [some 0, some 0, some 0, some 0, some 0,
          none, none, none, none, none]).asm.groups.map Prod.fst = [2, 1] :=
  c3_amended_emission_in_request_order [2, 1] (fun _ => Outcome.ok) 1
    [some 0, some 0, some 0, some 0, some 0, none, none, none, none, none]
    (by decide)

/-- C4: when no page's pipeline raises a genuine error and page k raises the
`NotAvailable` (no image) condition, the run never aborts — no `abortRun`
event, the assembler never reaches the joining/exited failure states, and the
retention flag stays off — and when the assembler completes its loop it has
emitted one group per requested page in order, with page k's group carrying an
empty text body; all other pages are processed normally. -/
theorem c4_noimage_is_not_fatal (pages : List Nat) (oracle : Nat → Outcome)
    (nW : Nat) (sched : List (Option Nat)) (k : Nat)
    (hne : ∀ p ∈ pages, oracle p ≠ .err)
    (hk : k ∈ pages) (hko : oracle k = .noImage) :
    (Ev.abortRun ∉ (run_sched pages oracle nW sched).events
      ∧ (run_sched pages oracle nW sched).asm.sub ≠ .joining
      ∧ (run_sched pages oracle nW sched).asm.sub ≠ .exited
      ∧ (run_sched pages oracle nW sched).debug = false)
    ∧ ((run_sched pages oracle nW sched).asm.sub = .loopEnded →
        (run_sched pages oracle nW sched).asm.groups
          = pages.map (fun p => (p, emptyFlag (oracle p)))
        ∧ (k, true) ∈ (run_sched pages oracle nW sched).asm.groups) := by
  have h := inv_run_sched pages oracle nW sched
  have hnoab : Ev.abortRun ∉ (run_sched pages oracle nW sched).events := by
    intro hab
    obtain ⟨p, hp, hperr⟩ := h.abortEvErr hab
    exact hne p hp hperr
  refine ⟨⟨hnoab, ?_, ?_, ?_⟩, ?_⟩
  · intro e
    exact hnoab (h.subAbortEv (Or.inl e))
  · intro e
    exact hnoab (h.subAbortEv (Or.inr e))
  · cases hd : (run_sched pages oracle nW sched).debug
    · rfl
    · exact absurd (h.debugAbort hd) hnoab
  · intro hend
    have hlen := h.asmLoopEnded hend
    have hgroups : (run_sched pages oracle nW sched).asm.groups
        = pages.map (fun p => (p, emptyFlag (oracle p))) := by
      rw [h.asmGroups, List.take_of_length_le hlen]
    refine ⟨hgroups, ?_⟩
    rw [hgroups]
    have hmem := List.mem_map_of_mem (fun p => (p, emptyFlag (oracle p))) hk
    simpa [hko, emptyFlag] using hmem

/-- Witness for C4: three pages with page 2 lacking a recognizable image; a
complete one-worker run emits an empty-body group for page 2 and normal groups
for pages 1 and 3. -/
theorem c4_noimage_is_not_fatal_witness :
    (run_sched [1, 2, 3] (fun p => if p = 2 then Outcome.noImage else Outcome.ok) 1
        [some 0, some 0, some 0, some 0, some 0, some 0, some 0,
          none, none, none, none, none, none, none]).asm.groups
      = ([1, 2, 3].map (fun p =>
          (p, emptyFlag ((fun p => if p = 2 then Outcome.noImage else Outcome.ok) p))))
    ∧ (2, true) ∈ (run_sched [1, 2, 3]
        (fun p => if p = 2 then Outcome.noImage else Outcome.ok) 1
        [some 0, some 0, some 0, some 0, some 0, some 0, some 0,
          none, none, none, none, none, none, none]).asm.groups :=
  (c4_noimage_is_not_fatal [1, 2, 3]
    (fun p => if p = 2 then Outcome.noImage else Outcome.ok) 1
    [some 0, some 0, some 0, some 0, some 0, some 0, some 0,
      none, none, none, none, none, none, none] 2
    (by decide) (by decide) (by decide)).2 (by decide)

/-- Counterexample to C5 as stated: the Failure resolution is written at line
400 *outside* any `with condition:` block, and the wake issued is
`condition.notify()` — one waiter, not a broadcast. In the concrete one-page
failing run the trace contains a resolution event with `locked = false` and
wake `none`, so not every terminal transition is performed under the lock and
followed by a broadcast. -/
theorem c5_counterexample_failure_resolution_unlocked_no_broadcast :
    Ev.resolvePage 0 1 .err false none
      ∈ (run_sched [1] (fun _ => Outcome.err) 1 [some 0, some 0, some 0]).events
    ∧ ((run_sched [1] (fun _ => Outcome.err) 1 [some 0, some 0, some 0]).events.all
        (fun e => match e with
          | .resolvePage _ _ _ l k => l && (k == some NKind.all)
          | _ => true)) = false := by
  decide

/-- C5 amended: every terminal transition happens exactly once — at most one
resolution event per page ever, exactly one for each terminal entry — and is
performed by the very worker that claimed the page; Success and NoImage
resolutions are written under the condition lock together with a single-waiter
`notify()` (not a broadcast), while a Failure resolution is written without
the lock and carries no wake (the notify follows in a separate locked step). -/
theorem c5_amended_resolution_once_by_claimer (pages : List Nat)
    (oracle : Nat → Outcome) (nW : Nat) (sched : List (Option Nat)) :
    (∀ p, resolvesOn p (run_sched pages oracle nW sched).events ≤ 1)
    ∧ (∀ p, ((run_sched pages oracle nW sched).results p).isTerminal = true →
        resolvesOn p (run_sched pages oracle nW sched).events = 1)
    ∧ (∀ w n o l k,
        Ev.resolvePage w n o l k ∈ (run_sched pages oracle nW sched).events →
        Ev.claimPage w n ∈ (run_sched pages oracle nW sched).events
        ∧ ((o = .err ∧ l = false ∧ k = none)
            ∨ ((o = .ok ∨ o = .noImage) ∧ l = true ∧ k = some .one))) := by
  have h := inv_run_sched pages oracle nW sched
  refine ⟨?_, ?_, ?_⟩
  · intro p
    rw [h.resolvesCount p]
    split <;> simp
  · intro p hterm
    rw [h.resolvesCount p]
    rw [if_neg]
    intro hc
    rcases hc with hc | hc <;> rw [hc] at hterm <;> exact absurd hterm (by decide)
  · intro w n o l k hm
    exact ⟨h.resolveMatch w n o l k hm, h.resolveFlags w n o l k hm⟩

/-- Witness for C5's amended claim: in a one-page successful run, the
resolution event is matched by the same worker's claim and carries the
locked/notify-one flags. -/
theorem c5_amended_resolution_once_by_claimer_witness :
    Ev.claimPage 0 1 ∈ (run_sched [1] (fun _ => Outcome.ok) 1 [some 0, some 0]).events
    ∧ ((Outcome.ok = .err ∧ true = false ∧ some NKind.one = none)
        ∨ ((Outcome.ok = .ok ∨ Outcome.ok = .noImage)
            ∧ true = true ∧ some NKind.one = some NKind.one)) :=
  (c5_amended_resolution_once_by_claimer [1] (fun _ => Outcome.ok) 1 [some 0, some 0]).2.2
    0 1 .ok true (some .one) (by decide)

end Ocrodjvu
